import Mathlib

/-!
# Verification of the AIClips clip-extraction service

Shallow embedding of the clip-extraction orchestration subsystem:
`src/utils/time.ts` (time parsing/formatting), `src/services/ytdlp.ts`
(argument building, process supervision, output-file discovery) and
`src/server.ts` (request handling, URL authorization, credential staging
and cleanup).

JavaScript numbers are modelled as exact rationals (`ℚ`); the
floating-point rounding of IEEE doubles is not modelled (all values the
claims mention are exactly representable).  Strings are modelled as Lean
`String`s and processed over their `List Char` contents.
-/

attribute [local semireducible] Rat.add Rat.mul Rat.sub Rat.inv

instance {ε α : Type} [DecidableEq ε] [DecidableEq α] : DecidableEq (Except ε α) := by
  intro a b
  cases a <;> cases b
  case error.error e f =>
    exact if h : e = f then .isTrue (by rw [h]) else .isFalse (by simp [h])
  case ok.ok x y =>
    exact if h : x = y then .isTrue (by rw [h]) else .isFalse (by simp [h])
  case error.ok e x => exact .isFalse (by simp)
  case ok.error x e => exact .isFalse (by simp)

namespace AIClips

/-! ## Character and string primitives (JS semantics) -/

/-- The whitespace characters recognised by `String.prototype.trim` and by
`parseFloat`'s leading-whitespace skipping (ASCII whitespace plus NBSP;
exotic Unicode space characters are not modelled). -/
def isWs (c : Char) : Bool :=
  c = ' ' || c = '\t' || c = '\n' || c = '\r' ||
  c = Char.ofNat 11 || c = Char.ofNat 12 || c = Char.ofNat 160

/-- Decimal digit test, `/[0-9]/`. -/
def isDigitCh (c : Char) : Bool := '0' ≤ c && c ≤ '9'

/-- Numeric value of a digit character. -/
def digitVal (c : Char) : ℕ := c.toNat - 48

/-- Value of a big-endian digit string. -/
def natOfDigits (l : List Char) : ℕ := l.foldl (fun a c => 10 * a + digitVal c) 0

/-- `10 ^ n` as a rational, computed in `ℕ` (kernel-reducible, unlike the
`Monoid.npow` instance on `ℚ`). -/
def pow10 (n : ℕ) : ℚ := ((10 ^ n : ℕ) : ℚ)

/-- `10 ^ e` for an integer exponent. -/
def pow10Z : ℤ → ℚ
  | .ofNat n => pow10 n
  | .negSucc n => 1 / pow10 (n + 1)

/-- Value of the decimal literal `ip.fp` (integer part, fractional part). -/
def decValue (ip fp : List Char) : ℚ :=
  (natOfDigits ip : ℚ) + (natOfDigits fp : ℚ) / pow10 fp.length

/-- Remove leading JS whitespace. -/
def trimLeftL (l : List Char) : List Char := l.dropWhile isWs

/-- Remove trailing JS whitespace. -/
def trimRightL (l : List Char) : List Char := (l.reverse.dropWhile isWs).reverse

/-- `String.prototype.trim` on char lists. -/
def trimList (l : List Char) : List Char := trimLeftL (trimRightL l)

/-- `String.prototype.trim`. -/
def jsTrim (s : String) : String := String.mk (trimList s.toList)

/-- `String.prototype.split` with a single-character separator. -/
def splitChar : List Char → Char → List (List Char)
  | [], _ => [[]]
  | c :: t, sep =>
    if c = sep then [] :: splitChar t sep
    else
      match splitChar t sep with
      | [] => [[c]]
      | h :: r => (c :: h) :: r

/-! ## JS `parseFloat` (restricted to finite results)

The clock-expression branch of `parseTimeToSeconds` computes
`parseFloat(field)` and then guards with `Number.isFinite`.  We model the
composition: `jsParseFloatFinite` returns `some v` exactly when
`parseFloat` yields a finite number `v` (a `NaN` result — no numeric
prefix — and an `Infinity` result — an `Infinity` literal — both map to
`none`; overflow of astronomically large exponents to `Infinity` is not
modelled). -/

/-- Parse the unsigned mantissa prefix: `digits [. digits]` or `. digits`.
Returns the value and the unconsumed remainder. -/
def parseMantissa (l : List Char) : Option (ℚ × List Char) :=
  match l with
  | '.' :: t =>
    if (t.takeWhile isDigitCh).isEmpty then none
    else some (decValue [] (t.takeWhile isDigitCh), t.dropWhile isDigitCh)
  | _ =>
    if (l.takeWhile isDigitCh).isEmpty then none
    else
      match l.dropWhile isDigitCh with
      | '.' :: t2 =>
        some (decValue (l.takeWhile isDigitCh) (t2.takeWhile isDigitCh),
              t2.dropWhile isDigitCh)
      | _ => some ((natOfDigits (l.takeWhile isDigitCh) : ℚ), l.dropWhile isDigitCh)

/-- Parse an optional exponent suffix `e|E [+|-] digits`; absent or
incomplete exponents contribute 0. -/
def parseExpPart (l : List Char) : ℤ :=
  match l with
  | c :: t =>
    if c = 'e' || c = 'E' then
      let (sg, t2) : ℤ × List Char :=
        match t with
        | '+' :: u => (1, u)
        | '-' :: u => (-1, u)
        | _ => (1, t)
      let ed := t2.takeWhile isDigitCh
      if ed.isEmpty then 0 else sg * (natOfDigits ed : ℤ)
    else 0
  | [] => 0

/-- The value of a parsed mantissa-and-remainder pair: the mantissa scaled
by the optional exponent suffix found at the start of the remainder. -/
def mantissaValue (mr : ℚ × List Char) : ℚ := mr.1 * pow10Z (parseExpPart mr.2)

/-- `parseFloat` followed by the `Number.isFinite` guard. -/
def jsParseFloatFinite (l0 : List Char) : Option ℚ :=
  match l0.dropWhile isWs with
  | '+' :: t => (parseMantissa t).map mantissaValue
  | '-' :: t => (parseMantissa t).map (fun mr => -(mantissaValue mr))
  | l => (parseMantissa l).map mantissaValue

/-! ## `src/utils/time.ts` -/

/-- Full-string match of `/^\d+(?:\.\d+)?$/`, returning the parsed value
(the bare-seconds branch of `parseTimeToSeconds`). -/
def matchNumericSeconds (l : List Char) : Option ℚ :=
  if (l.takeWhile isDigitCh).isEmpty then none
  else
    match l.dropWhile isDigitCh with
    | [] => some (natOfDigits (l.takeWhile isDigitCh) : ℚ)
    | '.' :: t =>
      if (t.takeWhile isDigitCh).isEmpty || !(t.dropWhile isDigitCh).isEmpty then none
      else some (decValue (l.takeWhile isDigitCh) (t.takeWhile isDigitCh))
    | _ => none

/-- Parse a `\d+(?:\.\d+)?` literal prefix (the capture group of the unit
regex); the fractional part is matched only when a digit follows the dot. -/
def parseDecLit (l : List Char) : Option (ℚ × List Char) :=
  if (l.takeWhile isDigitCh).isEmpty then none
  else
    match l.dropWhile isDigitCh with
    | '.' :: t2 =>
      if (t2.takeWhile isDigitCh).isEmpty then
        some ((natOfDigits (l.takeWhile isDigitCh) : ℚ), '.' :: t2)
      else some (decValue (l.takeWhile isDigitCh) (t2.takeWhile isDigitCh),
                 t2.dropWhile isDigitCh)
    | _ => some ((natOfDigits (l.takeWhile isDigitCh) : ℚ), l.dropWhile isDigitCh)

/-- One optional group `(?:(\d+(?:\.\d+)?)X)?` of the unit regex, where `X`
is the (case-insensitive) unit suffix: if a decimal literal directly
followed by the suffix is present, consume it; otherwise match empty. -/
def unitStage (l : List Char) (lo hi : Char) : Option ℚ × List Char :=
  match parseDecLit l with
  | some (v, c :: rest) => if c = lo || c = hi then (some v, rest) else (none, l)
  | _ => (none, l)

/-- Anchored match of `/^(?:(\d+(?:\.\d+)?)h)?(?:(\d+(?:\.\d+)?)m)?(?:(\d+(?:\.\d+)?)s)?$/i`,
returning the three captured groups. -/
def matchUnit (l : List Char) : Option (Option ℚ × Option ℚ × Option ℚ) :=
  if (unitStage (unitStage (unitStage l 'h' 'H').2 'm' 'M').2 's' 'S').2.isEmpty then
    some ((unitStage l 'h' 'H').1,
          (unitStage (unitStage l 'h' 'H').2 'm' 'M').1,
          (unitStage (unitStage (unitStage l 'h' 'H').2 'm' 'M').2 's' 'S').1)
  else none

/-- The clock-expression block of `parseTimeToSeconds` (lines 21-31 of
`src/utils/time.ts`), reached when the bare-number and unit grammars have
not produced a result: split on `:`, trim each field, reject empty
fields, and apply field arithmetic on the two- and three-field forms when
every field parses to a finite number. -/
def colonEval (input : String) : Except String ℚ :=
  let parts := (splitChar (trimList input.toList) ':').map trimList
  if parts.any (fun p => p.isEmpty) then .error "Invalid time format"
  else
    match parts with
    | [a, b] =>
      match jsParseFloatFinite a, jsParseFloatFinite b with
      | some mm, some ss => .ok (mm * 60 + ss)
      | _, _ => .error ("Unsupported time format: " ++ input)
    | [a, b, c] =>
      match jsParseFloatFinite a, jsParseFloatFinite b, jsParseFloatFinite c with
      | some hh, some mm, some ss => .ok (hh * 3600 + mm * 60 + ss)
      | _, _, _ => .error ("Unsupported time format: " ++ input)
    | _ => .error ("Unsupported time format: " ++ input)

/-- `parseTimeToSeconds` from `src/utils/time.ts`: bare decimal seconds,
else `1h2m3s`-style unit expression with positive total, else `mm:ss` /
`hh:mm:ss` clock expression (`colonEval`); throws (modelled as `.error`)
otherwise. -/
def parseTimeToSeconds (input : String) : Except String ℚ :=
  let t := trimList input.toList
  if t.isEmpty then .error "Time is empty"
  else
    match matchNumericSeconds t with
    | some v => .ok v
    | none =>
      let unitResult : Option ℚ :=
        match matchUnit t with
        | some (h, m, s) =>
          let total := (h.getD 0) * 3600 + (m.getD 0) * 60 + (s.getD 0)
          if 0 < total then some total else none
        | none => none
      match unitResult with
      | some v => .ok v
      | none =>
        if t.contains ':' then colonEval input
        else .error ("Unsupported time format: " ++ input)

/-- Digit character of a value `< 10`. -/
def digitChar (d : ℕ) : Char := Char.ofNat (48 + d)

/-- Big-endian decimal digits of `n`, with explicit fuel (`fuel ≥ n`
suffices); renders `0` as the empty list. -/
def natToCharsAux : ℕ → ℕ → List Char
  | 0, _ => []
  | fuel + 1, n =>
    if n = 0 then [] else natToCharsAux fuel (n / 10) ++ [digitChar (n % 10)]

/-- `String(n)` for a natural number. -/
def natToChars (n : ℕ) : List Char :=
  if n = 0 then ['0'] else natToCharsAux n n

/-- `String.prototype.padStart(2, "0")`. -/
def pad2 (l : List Char) : List Char :=
  if 2 ≤ l.length then l else List.replicate (2 - l.length) '0' ++ l

/-- `secondsToHms` from `src/utils/time.ts`: clamp negatives to zero,
floor to whole seconds, format as zero-padded `HH:MM:SS`. -/
def secondsToHms (secondsInput : ℚ) : String :=
  let seconds : ℕ := (max 0 ⌊secondsInput⌋).toNat
  let h := seconds / 3600
  let m := seconds % 3600 / 60
  let s := seconds % 60
  String.mk (pad2 (natToChars h) ++ ':' :: pad2 (natToChars m) ++ ':' :: pad2 (natToChars s))

/-! ## `src/services/ytdlp.ts` -/

/-- The two container formats accepted by the service
(`format?: "mp4" | "webm"`). -/
inductive Format where
  | mp4
  | webm
deriving DecidableEq, Repr

/-- The fixed default User-Agent string `DEFAULT_UA`. -/
def DEFAULT_UA : String :=
  "Mozilla/5.0 (Windows NT 10.0; Win64; x64) AppleWebKit/537.36 " ++
  "(KHTML, like Gecko) Chrome/122.0.0.0 Safari/537.36"

/-- JS truthiness of a `string | undefined` value: `undefined` and the
empty string are falsy. -/
def jsTruthyStr : Option String → Bool
  | none => false
  | some s => !(s = "")

/-- JS `a || b` on `string | undefined` values. -/
def jsOrStr (a b : Option String) : Option String :=
  if jsTruthyStr a then a else b

/-- The option fields of `ClipOptions` consumed by `buildYtDlpArgs`. -/
structure ArgsOpts where
  url : String
  startSeconds : ℚ
  endSeconds : ℚ
  format : Format
  cookieHeader : Option String
  cookiesTxtPath : Option String
  userAgent : Option String

/-- The environment variables `buildYtDlpArgs` reads
(`YOUTUBE_USER_AGENT`, `YOUTUBE_COOKIE_HEADER`, `YT_COOKIES_FILE`). -/
structure EnvCfg where
  userAgent : Option String
  cookieHeader : Option String
  cookiesFile : Option String

/-- `buildYtDlpArgs` from `src/services/ytdlp.ts`, mirroring the source's
sequence of `args.push` calls. -/
def buildYtDlpArgs (opts : ArgsOpts) (env : EnvCfg) (outputPathWithoutExt : String) :
    List String :=
  let start := secondsToHms opts.startSeconds
  let endT := secondsToHms opts.endSeconds
  let args : List String :=
    [opts.url, "-f", "bv*+ba/b", "--no-playlist", "--no-progress", "--newline",
     "--force-keyframes-at-cuts", "--download-sections", "*" ++ start ++ "-" ++ endT,
     "-o", outputPathWithoutExt ++ ".%(ext)s"]
  let args := args ++
    (match opts.format with
     | .mp4 => ["--remux-video", "mp4"]
     | .webm => ["--merge-output-format", "webm"])
  let ua := (jsOrStr (jsOrStr opts.userAgent env.userAgent) (some DEFAULT_UA)).getD DEFAULT_UA
  let args := args ++
    ["--add-header", "User-Agent: " ++ ua,
     "--add-header", "Accept-Language: en-US,en;q=0.9",
     "--add-header", "DNT: 1"]
  let cookieHeader := jsOrStr opts.cookieHeader env.cookieHeader
  let cookiesFile := jsOrStr opts.cookiesTxtPath env.cookiesFile
  let args := args ++
    (if jsTruthyStr cookieHeader then
      ["--add-header", "Cookie: " ++ cookieHeader.getD ""]
     else [])
  let args := args ++
    (if jsTruthyStr cookiesFile then ["--cookies", cookiesFile.getD ""] else [])
  args

/-- `path.join dir file`. -/
def joinPath (dir file : String) : String := dir ++ "/" ++ file

/-- The ordered probe list of `findProducedFile`. -/
def probeCandidates (baseName : String) : List String :=
  [baseName ++ ".mp4", baseName ++ ".mkv", baseName ++ ".webm",
   baseName ++ ".mov", baseName ++ ".m4a", baseName ++ ".mp3"]

/-- `findProducedFile` from `src/services/ytdlp.ts`: probe the fixed
extension list against the files present in the output directory
(`entries`, which also gives the `fs.readdir` order), then fall back to
scanning for the first entry starting with `baseName ++ "."`. -/
def findProducedFile (outputDir : String) (entries : List String) (baseName : String) :
    Option String :=
  match (probeCandidates baseName).find? (fun f => entries.contains f) with
  | some f => some (joinPath outputDir f)
  | none =>
    (entries.find? (fun e => e.startsWith (baseName ++ "."))).map (joinPath outputDir)

/-- The timeout marker appended to stderr when the subprocess is killed. -/
def timeoutMarker : String := "\nTimed out while running yt-dlp"

/-- The wall-clock budget: `Math.max(10_000, opts.timeoutMs ?? 15*60*1000)`. -/
def effectiveTimeoutMs (timeoutMs : Option ℕ) : ℕ :=
  max 10000 (timeoutMs.getD (15 * 60 * 1000))

/-- The behaviour of one spawned external process, abstracting the OS:
whether the spawn errors, the wall-clock time until its `close` event
would fire naturally, its exit code (`none` models a null code from a
signal), the captured output streams at close time, and the entries of
the output directory when it finishes. -/
structure ProcBehavior where
  spawnError : Option String
  runMs : ℕ
  exitCode : Option ℤ
  stdoutCaptured : String
  stderrCaptured : String
  dirEntries : List String

/-- Options consumed by the supervision part of `downloadClip`. -/
structure DLOpts where
  startSeconds : ℚ
  endSeconds : ℚ
  outputDir : String
  baseName : String
  timeoutMs : Option ℕ

/-- The observable outcome of one `downloadClip` run. -/
structure DLRun where
  spawned : Bool
  killedSignal : Option String
  finalStderr : String
  result : Except String String
deriving DecidableEq, Repr

/-- `downloadClip` from `src/services/ytdlp.ts` (lines 106-169): range
precondition, spawn, timeout supervision (timer at
`max(10_000, timeoutMs ?? 900_000)`, `SIGKILL` on expiry, timeout marker
appended to stderr, close code forced to `-1` via `code ?? -1`), non-zero
exit reported as the trimmed concatenated output (or a generic message),
and output-file resolution on exit 0. -/
def downloadClipModel (o : DLOpts) (p : ProcBehavior) : DLRun :=
  if o.endSeconds ≤ o.startSeconds then
    ⟨false, none, "", .error "end must be greater than start"⟩
  else
    match p.spawnError with
    | some e => ⟨true, none, p.stderrCaptured, .error e⟩
    | none =>
      let T := effectiveTimeoutMs o.timeoutMs
      let killed := T < p.runMs
      let stderr2 := if killed then p.stderrCaptured ++ timeoutMarker else p.stderrCaptured
      let code : ℤ := if killed then -1 else p.exitCode.getD (-1)
      if code ≠ 0 then
        let combined := jsTrim (p.stdoutCaptured ++ "\n" ++ stderr2)
        ⟨true, if killed then some "SIGKILL" else none, stderr2,
         .error (if combined = "" then "yt-dlp exited with code " ++ toString code
                 else combined)⟩
      else
        match findProducedFile o.outputDir p.dirEntries o.baseName with
        | none => ⟨true, none, stderr2, .error "Clip produced no output file"⟩
        | some f => ⟨true, none, stderr2, .ok f⟩

/-! ## `src/server.ts` -/

/-- `isYouTubeUrl`'s hostname test:
`/(^|\.)youtube\.com$/.test(h) || /(^|\.)youtu\.be$/.test(h)`. -/
def hostAllowed (h : String) : Bool :=
  (h = "youtube.com" || List.isSuffixOf ('.' :: "youtube.com".toList) h.toList) ||
  (h = "youtu.be" || List.isSuffixOf ('.' :: "youtu.be".toList) h.toList)

/-- `isYouTubeUrl` over the parsed hostname of the request URL (`none`
models a URL that `new URL` rejects, caught and mapped to `false`). -/
def isYouTubeUrl (urlHost : Option String) : Bool :=
  match urlHost with
  | none => false
  | some h => hostAllowed h

/-- ASCII lower-casing, modelling the `/i` regex flag of the
authentication-error classifier. -/
def asciiLower (c : Char) : Char :=
  if 'A' ≤ c && c ≤ 'Z' then Char.ofNat (c.toNat + 32) else c

/-- Substring test on char lists. -/
def listContains (hay pat : List Char) : Bool :=
  hay.tails.any (fun t => pat.isPrefixOf t)

/-- The straight-apostrophe character (U+0027). -/
def apos : Char := Char.ofNat 39

/-- The catch handlers' authentication-required pattern:
`/Sign in to confirm you’re not a bot|Use --cookies-from-browser|pass cookies to yt-dlp|Sign in to confirm you'?re not a bot/i`. -/
def isAuthErrorMessage (m : String) : Bool :=
  let lm := m.toList.map asciiLower
  let p1 := "sign in to confirm you’re not a bot".toList
  let p2 := "use --cookies-from-browser".toList
  let p3 := "pass cookies to yt-dlp".toList
  let p4 := "sign in to confirm youre not a bot".toList
  let p5 := ("sign in to confirm you".toList ++ [apos]) ++ "re not a bot".toList
  listContains lm p1 || listContains lm p2 || listContains lm p3 ||
  listContains lm p4 || listContains lm p5

/-- The HTTP outcome of one request to `/api/clip`. -/
inductive Outcome where
  | badRequest (msg : String)
  | authRequired
  | serverError (msg : String)
  | streamed (fileName : String)
deriving DecidableEq, Repr

/-- What one handled request leaves behind: its outcome, whether
`downloadClip` reached the spawn call, whether a cookies file was staged
by `writeTempCookies`, and whether that staged file is still present in
temporary storage after the request is over. -/
structure ReqTrace where
  outcome : Outcome
  spawned : Bool
  cookieStaged : Bool
  cookieFileRemains : Bool
  outputFileRemains : Bool
deriving DecidableEq, Repr

/-- The catch handlers of both `/api/clip` routes: classify the error
message, answering 401 for authentication-required signatures and 500
otherwise. -/
def classifyCatch (m : String) : Outcome :=
  if isAuthErrorMessage m then .authRequired else .serverError m

/-- `path.basename` (everything after the last `/`). -/
def basenameOf (p : String) : String :=
  String.mk ((p.toList.reverse.takeWhile (fun c => c ≠ '/')).reverse)

/-- A `POST /api/clip` request after body parsing: the hostname of its
URL if `new URL` accepts it (`z.string().url()` fails otherwise), the
raw `start`/`end` strings, optional credentials, and the format. -/
structure PostRequest where
  urlHost : Option String
  startStr : String
  endStr : String
  cookieHeader : Option String
  cookiesTxtBase64 : Option String
  format : Format

/-- The `POST /api/clip` handler (`src/server.ts` lines 104-163):
validate shape, authorize the hostname, parse the time bounds, stage the
cookies file when a base64 payload is present, run `downloadClip`, and on
success stream the file and register a cleanup (run on `close`, `error`
and `finish`) deleting the output file and any staged cookies file.  The
catch path responds 401/500 and performs no deletion. -/
def postClipModel (r : PostRequest) (p : ProcBehavior) (baseName : String)
    (outputDirectory : String) : ReqTrace :=
  match r.urlHost with
  | none => ⟨.serverError "Invalid request body", false, false, false, false⟩
  | some h =>
    if !hostAllowed h then
      ⟨.badRequest "Only YouTube URLs are supported", false, false, false, false⟩
    else
      match parseTimeToSeconds r.startStr with
      | .error m => ⟨classifyCatch m, false, false, false, false⟩
      | .ok startSeconds =>
        match parseTimeToSeconds r.endStr with
        | .error m => ⟨classifyCatch m, false, false, false, false⟩
        | .ok endSeconds =>
          let staged := r.cookiesTxtBase64.isSome
          let run := downloadClipModel
            ⟨startSeconds, endSeconds, outputDirectory, baseName, none⟩ p
          match run.result with
          | .error m => ⟨classifyCatch m, run.spawned, staged, staged, false⟩
          | .ok outputPath =>
            ⟨.streamed (basenameOf outputPath), run.spawned, staged, false, false⟩

/-- A `GET /api/clip` request (query-parameter form; no cookies file,
format fixed to mp4). -/
structure GetRequest where
  urlHost : Option String
  startStr : String
  endStr : String
  cookieHeader : Option String

/-- The `GET /api/clip` handler (`src/server.ts` lines 46-102): same
pipeline as the POST form without credential staging. -/
def getClipModel (r : GetRequest) (p : ProcBehavior) (baseName : String)
    (outputDirectory : String) : ReqTrace :=
  match r.urlHost with
  | none => ⟨.serverError "Invalid request body", false, false, false, false⟩
  | some h =>
    if !hostAllowed h then
      ⟨.badRequest "Only YouTube URLs are supported", false, false, false, false⟩
    else
      match parseTimeToSeconds r.startStr with
      | .error m => ⟨classifyCatch m, false, false, false, false⟩
      | .ok startSeconds =>
        match parseTimeToSeconds r.endStr with
        | .error m => ⟨classifyCatch m, false, false, false, false⟩
        | .ok endSeconds =>
          let run := downloadClipModel
            ⟨startSeconds, endSeconds, outputDirectory, baseName, none⟩ p
          match run.result with
          | .error m => ⟨classifyCatch m, run.spawned, false, false, false⟩
          | .ok outputPath =>
            ⟨.streamed (basenameOf outputPath), run.spawned, false, false, false⟩

/-! ## Helper definitions for the proofs -/

/-- `true` when the first element of `l` (if any) fails `p`; this is the
side condition under which `dropWhile p` strips nothing. -/
def headFails (p : Char → Bool) (l : List Char) : Bool :=
  match l with
  | [] => true
  | c :: _ => !p c

/-- Interleave a separator between the chunks (left inverse of
`splitChar`). -/
def joinSep : List (List Char) → Char → List Char
  | [], _ => []
  | [p], _ => p
  | p :: q :: r, sep => p ++ sep :: joinSep (q :: r) sep

/-- Render an optional unit component (`some l` ↦ `l` followed by the
suffix letter, `none` ↦ nothing). -/
def renderUnit (o : Option (List Char)) (sfx : Char) : List Char :=
  match o with
  | none => []
  | some l => l ++ [sfx]

/-- Render a compound unit expression from its optional hour, minute and
second components. -/
def renderUnits (oh om os : Option (List Char)) : List Char :=
  renderUnit oh 'h' ++ renderUnit om 'm' ++ renderUnit os 's'

/-- The argument vector as the specification describes it: fixed head, a
container-normalization argument chosen by the requested format, headers
with `explicit option > environment override > fixed default` precedence
for the User-Agent, and cookie arguments (each with
`explicit option > environment override` precedence) included only when a
value is present.  This definition follows the spec's words; the theorem
for C4 proves it equal to `buildYtDlpArgs`, which follows the source. -/
def specArgVector (opts : ArgsOpts) (env : EnvCfg) (outputPathWithoutExt : String) :
    List String :=
  [opts.url, "-f", "bv*+ba/b", "--no-playlist", "--no-progress", "--newline",
   "--force-keyframes-at-cuts", "--download-sections",
   "*" ++ secondsToHms opts.startSeconds ++ "-" ++ secondsToHms opts.endSeconds,
   "-o", outputPathWithoutExt ++ ".%(ext)s"] ++
  (match opts.format with
   | .mp4 => ["--remux-video", "mp4"]
   | .webm => ["--merge-output-format", "webm"]) ++
  ["--add-header",
   "User-Agent: " ++ (opts.userAgent.getD (env.userAgent.getD DEFAULT_UA)),
   "--add-header", "Accept-Language: en-US,en;q=0.9",
   "--add-header", "DNT: 1"] ++
  (match opts.cookieHeader.or env.cookieHeader with
   | some c => ["--add-header", "Cookie: " ++ c]
   | none => []) ++
  (match opts.cookiesTxtPath.or env.cookiesFile with
   | some f => ["--cookies", f]
   | none => [])

/-! ## Lemmas: `takeWhile` / `dropWhile` / trimming -/

theorem dropWhile_eq_self_of_headFails {p : Char → Bool} {l : List Char}
    (h : headFails p l = true) : l.dropWhile p = l := by
  cases l with
  | nil => rfl
  | cons c t =>
    simp only [headFails, Bool.not_eq_true'] at h
    simp [List.dropWhile, h]

theorem takeWhile_append_eq {p : Char → Bool} {ds r : List Char}
    (h1 : ∀ c ∈ ds, p c = true) (h2 : headFails p r = true) :
    (ds ++ r).takeWhile p = ds := by
  induction ds with
  | nil =>
    cases r with
    | nil => rfl
    | cons c t =>
      simp only [headFails, Bool.not_eq_true'] at h2
      simp [List.takeWhile, h2]
  | cons d ds ih =>
    have hd : p d = true := h1 d (by simp)
    simp only [List.cons_append, List.takeWhile_cons, hd, if_true]
    simp only [ih (fun c hc => h1 c (by simp [hc]))]

theorem dropWhile_append_eq {p : Char → Bool} {ds r : List Char}
    (h1 : ∀ c ∈ ds, p c = true) (h2 : headFails p r = true) :
    (ds ++ r).dropWhile p = r := by
  induction ds with
  | nil => simpa using dropWhile_eq_self_of_headFails h2
  | cons d ds ih =>
    have hd : p d = true := h1 d (by simp)
    simp only [List.cons_append, List.dropWhile_cons, hd, if_true]
    exact ih (fun c hc => h1 c (by simp [hc]))

theorem suffix_dropWhile {p : Char → Bool} (a : List Char) {m : List Char}
    (h : headFails p m = true) (hm : m ≠ []) : m <:+ (a ++ m).dropWhile p := by
  induction a with
  | nil => rw [List.nil_append, dropWhile_eq_self_of_headFails h]
  | cons x a ih =>
    by_cases hx : p x = true
    · simpa [List.dropWhile_cons, hx] using ih
    · simp only [List.cons_append, List.dropWhile_cons, hx, if_false]
      exact (List.suffix_append a m).trans (List.suffix_cons x (a ++ m))

theorem dropWhile_eq_self_of_all {p : Char → Bool} {l : List Char}
    (h : ∀ c ∈ l, p c = false) : l.dropWhile p = l := by
  cases l with
  | nil => rfl
  | cons c t => exact dropWhile_eq_self_of_headFails (by simp [headFails, h c])

theorem trimList_eq_self_of_no_ws {l : List Char}
    (h : ∀ c ∈ l, isWs c = false) : trimList l = l := by
  unfold trimList trimRightL trimLeftL
  rw [dropWhile_eq_self_of_all (fun c hc => h c (List.mem_reverse.mp hc))]
  rw [List.reverse_reverse, dropWhile_eq_self_of_all h]

theorem trimRightL_append_of_getLast {a m : List Char}
    (h : headFails isWs m.reverse = true) (hm : m ≠ []) :
    trimRightL (a ++ m) = a ++ m := by
  unfold trimRightL
  rw [List.reverse_append]
  have : (m.reverse ++ a.reverse).dropWhile isWs = m.reverse ++ a.reverse := by
    cases hr : m.reverse with
    | nil => exact absurd (by simpa using congrArg List.reverse hr) hm
    | cons c t =>
      rw [hr] at h
      simp only [headFails, Bool.not_eq_true'] at h
      simp [List.dropWhile_cons, h]
  rw [this, List.reverse_append, List.reverse_reverse, List.reverse_reverse]

theorem suffix_trimList {a m : List Char}
    (hHead : headFails isWs m = true) (hLast : headFails isWs m.reverse = true)
    (hm : m ≠ []) : m <:+ trimList (a ++ m) := by
  unfold trimList
  rw [trimRightL_append_of_getLast hLast hm]
  exact suffix_dropWhile a hHead hm

theorem mem_of_mem_trimList {l : List Char} {c : Char}
    (h : c ∈ trimList l) : c ∈ l := by
  unfold trimList trimLeftL trimRightL at h
  have h1 := (List.dropWhile_sublist (l := (l.reverse.dropWhile isWs).reverse) (p := isWs)).mem h
  have h2 := (List.dropWhile_sublist (l := l.reverse) (p := isWs)).mem (List.mem_reverse.mp h1)
  exact List.mem_reverse.mp h2

/-! ## Lemmas: digit strings -/

theorem natOfDigits_cons_acc (l : List Char) (a : ℕ) :
    l.foldl (fun a c => 10 * a + digitVal c) a =
      a * 10 ^ l.length + natOfDigits l := by
  induction l generalizing a with
  | nil => simp [natOfDigits]
  | cons c t ih =>
    rw [List.foldl_cons, ih]
    have h2 : natOfDigits (c :: t) = digitVal c * 10 ^ t.length + natOfDigits t := by
      show List.foldl _ (10 * 0 + digitVal c) t = _
      rw [show 10 * 0 + digitVal c = digitVal c by ring, ih]
    rw [h2, List.length_cons]
    ring

theorem natOfDigits_append (a b : List Char) :
    natOfDigits (a ++ b) = natOfDigits a * 10 ^ b.length + natOfDigits b := by
  unfold natOfDigits
  rw [List.foldl_append]
  exact natOfDigits_cons_acc b _

theorem natOfDigits_replicate_zero (k : ℕ) (l : List Char) :
    natOfDigits (List.replicate k '0' ++ l) = natOfDigits l := by
  induction k with
  | zero => simp
  | succ n ih =>
    rw [List.replicate_succ, List.cons_append]
    show List.foldl _ (10 * 0 + digitVal '0') _ = _
    have : digitVal '0' = 0 := by decide
    rw [this]
    exact ih

theorem isDigitCh_digitChar {d : ℕ} (h : d < 10) :
    isDigitCh (digitChar d) = true := by
  interval_cases d <;> decide

theorem digitVal_digitChar {d : ℕ} (h : d < 10) : digitVal (digitChar d) = d := by
  interval_cases d <;> decide

theorem natToCharsAux_all_digits : ∀ fuel n, ∀ c ∈ natToCharsAux fuel n, isDigitCh c = true := by
  intro fuel
  induction fuel with
  | zero => intro n c hc; simp [natToCharsAux] at hc
  | succ f ih =>
    intro n c hc
    unfold natToCharsAux at hc
    by_cases hn : n = 0
    · simp [hn] at hc
    · simp only [hn, if_false, List.mem_append, List.mem_singleton] at hc
      rcases hc with hc | hc
      · exact ih _ c hc
      · rw [hc]; exact isDigitCh_digitChar (Nat.mod_lt _ (by norm_num))

theorem natOfDigits_natToCharsAux : ∀ fuel n, n ≤ fuel →
    natOfDigits (natToCharsAux fuel n) = n := by
  intro fuel
  induction fuel with
  | zero => intro n hn; interval_cases n; simp [natToCharsAux, natOfDigits]
  | succ f ih =>
    intro n hn
    unfold natToCharsAux
    by_cases hz : n = 0
    · simp [hz, natOfDigits]
    · simp only [hz, if_false]
      rw [natOfDigits_append]
      have hlt : n / 10 ≤ f := by omega
      rw [ih _ hlt]
      simp only [List.length_singleton, pow_one, natOfDigits, List.foldl_cons,
        List.foldl_nil]
      rw [digitVal_digitChar (Nat.mod_lt _ (by norm_num))]
      omega

theorem natToChars_all_digits (n : ℕ) : ∀ c ∈ natToChars n, isDigitCh c = true := by
  intro c hc
  unfold natToChars at hc
  by_cases hn : n = 0
  · simp [hn] at hc; rw [hc]; decide
  · simp only [hn, if_false] at hc
    exact natToCharsAux_all_digits n n c hc

theorem natOfDigits_natToChars (n : ℕ) : natOfDigits (natToChars n) = n := by
  unfold natToChars
  by_cases hn : n = 0
  · simp [hn]; decide
  · simp only [hn, if_false]
    exact natOfDigits_natToCharsAux n n le_rfl

theorem pad2_all_digits {l : List Char} (h : ∀ c ∈ l, isDigitCh c = true) :
    ∀ c ∈ pad2 l, isDigitCh c = true := by
  intro c hc
  unfold pad2 at hc
  by_cases hl : 2 ≤ l.length
  · simp only [hl, if_true] at hc; exact h c hc
  · simp only [hl, if_false, List.mem_append] at hc
    rcases hc with hc | hc
    · rw [List.eq_of_mem_replicate hc]; decide
    · exact h c hc

theorem natOfDigits_pad2 (l : List Char) : natOfDigits (pad2 l) = natOfDigits l := by
  unfold pad2
  by_cases hl : 2 ≤ l.length
  · simp [hl]
  · simp only [hl, if_false]
    exact natOfDigits_replicate_zero _ l

theorem pad2_ne_nil (l : List Char) : pad2 l ≠ [] := by
  unfold pad2
  by_cases hl : 2 ≤ l.length
  · simp only [hl, if_true]
    intro h
    rw [h] at hl
    simp at hl
  · simp only [hl, if_false]
    intro h
    rcases List.append_eq_nil.mp h with ⟨h1, -⟩
    have := congrArg List.length h1
    simp [List.length_replicate] at this
    omega

/-! ## Lemmas: `splitChar` -/

theorem splitChar_cons_eq (c : Char) (t : List Char) (sep : Char) :
    splitChar (c :: t) sep =
      if c = sep then [] :: splitChar t sep
      else
        match splitChar t sep with
        | [] => [[c]]
        | h :: r => (c :: h) :: r := rfl

theorem splitChar_ne_nil (l : List Char) (sep : Char) : splitChar l sep ≠ [] := by
  cases l with
  | nil => simp [splitChar]
  | cons c t =>
    rw [splitChar_cons_eq]
    by_cases hc : c = sep
    · simp [hc]
    · simp only [hc, if_false]
      cases splitChar t sep <;> simp

theorem splitChar_no_sep {l : List Char} {sep : Char} (h : sep ∉ l) :
    splitChar l sep = [l] := by
  induction l with
  | nil => rfl
  | cons c t ih =>
    have hc : ¬ c = sep := fun he => h (by simp [he])
    have ht : sep ∉ t := fun hm => h (by simp [hm])
    rw [splitChar_cons_eq]
    simp only [hc, if_false, ih ht]

theorem splitChar_append {a : List Char} (b : List Char) {sep : Char} (h : sep ∉ a) :
    splitChar (a ++ sep :: b) sep = a :: splitChar b sep := by
  induction a with
  | nil =>
    rw [List.nil_append, splitChar_cons_eq]
    simp
  | cons c t ih =>
    have hc : ¬ c = sep := fun he => h (by simp [he])
    have ht : sep ∉ t := fun hm => h (by simp [hm])
    rw [List.cons_append, splitChar_cons_eq, ih ht]
    simp only [hc, if_false]

theorem joinSep_splitChar (l : List Char) (sep : Char) :
    joinSep (splitChar l sep) sep = l := by
  induction l with
  | nil => rfl
  | cons c t ih =>
    rw [splitChar_cons_eq]
    by_cases hc : c = sep
    · simp only [hc, if_true]
      cases hs : splitChar t sep with
      | nil => exact absurd hs (splitChar_ne_nil t sep)
      | cons p r =>
        have he : joinSep ([] :: p :: r) sep = sep :: joinSep (p :: r) sep := rfl
        rw [he, ← hs, ih]
    · simp only [hc, if_false]
      cases hs : splitChar t sep with
      | nil => exact absurd hs (splitChar_ne_nil t sep)
      | cons p r =>
        rw [hs] at ih
        cases r with
        | nil =>
          show joinSep [c :: p] sep = c :: t
          show c :: p = c :: t
          rw [show joinSep [p] sep = p from rfl] at ih
          rw [ih]
        | cons q r2 =>
          show (c :: p) ++ sep :: joinSep (q :: r2) sep = c :: t
          rw [List.cons_append]
          show c :: joinSep (p :: q :: r2) sep = c :: t
          rw [ih]

theorem sep_not_mem_of_mem_splitChar {l : List Char} {sep : Char} :
    ∀ p ∈ splitChar l sep, sep ∉ p := by
  induction l with
  | nil =>
    intro p hp
    simp only [splitChar, List.mem_singleton] at hp
    simp [hp]
  | cons c t ih =>
    intro p hp
    rw [splitChar_cons_eq] at hp
    by_cases hc : c = sep
    · simp only [hc, if_true, List.mem_cons] at hp
      rcases hp with hp | hp
      · simp [hp]
      · exact ih p hp
    · simp only [hc, if_false] at hp
      cases hs : splitChar t sep with
      | nil => exact absurd hs (splitChar_ne_nil t sep)
      | cons q r =>
        rw [hs] at hp
        simp only [List.mem_cons] at hp
        rcases hp with hp | hp
        · subst hp
          intro hm
          rcases List.mem_cons.mp hm with he | hm2
          · exact hc he.symm
          · exact ih q (hs ▸ List.mem_cons_self q r) hm2
        · exact ih p (hs ▸ List.mem_cons_of_mem q hp)

theorem mem_of_mem_splitChar {l : List Char} {sep : Char} {p : List Char}
    (hp : p ∈ splitChar l sep) : ∀ c ∈ p, c ∈ l := by
  induction l generalizing p with
  | nil =>
    simp only [splitChar, List.mem_singleton] at hp
    simp [hp]
  | cons x t ih =>
    intro c hc
    rw [splitChar_cons_eq] at hp
    by_cases hx : x = sep
    · simp only [hx, if_true, List.mem_cons] at hp
      rcases hp with hp | hp
      · simp [hp] at hc
      · exact List.mem_cons_of_mem x (ih hp c hc)
    · simp only [hx, if_false] at hp
      cases hs : splitChar t sep with
      | nil => exact absurd hs (splitChar_ne_nil t sep)
      | cons q r =>
        rw [hs] at hp
        rcases List.mem_cons.mp hp with hp | hp
        · subst hp
          rcases List.mem_cons.mp hc with hc | hc
          · simp [hc]
          · exact List.mem_cons_of_mem x (ih (hs ▸ List.mem_cons_self q r) c hc)
        · exact List.mem_cons_of_mem x (ih (hs ▸ List.mem_cons_of_mem q hp) c hc)

/-! ## Lemmas: the numeric matchers -/

theorem pow10_pos (n : ℕ) : 0 < pow10 n := by
  unfold pow10
  exact_mod_cast Nat.pos_pow_of_pos n (by norm_num)

theorem pow10Z_pos (e : ℤ) : 0 < pow10Z e := by
  cases e with
  | ofNat n => exact pow10_pos n
  | negSucc n => exact div_pos one_pos (pow10_pos (n + 1))

theorem decValue_nonneg (ip fp : List Char) : 0 ≤ decValue ip fp := by
  unfold decValue
  have h1 : (0:ℚ) ≤ (natOfDigits ip : ℚ) := Nat.cast_nonneg _
  have h2 : (0:ℚ) ≤ (natOfDigits fp : ℚ) / pow10 fp.length :=
    div_nonneg (Nat.cast_nonneg _) (le_of_lt (pow10_pos _))
  linarith

theorem matchNumericSeconds_inv {l : List Char} {v : ℚ}
    (h : matchNumericSeconds l = some v) :
    ((∀ c ∈ l, isDigitCh c = true) ∧ l ≠ [] ∧ v = (natOfDigits l : ℚ)) ∨
    (∃ ip fp, ip ≠ [] ∧ fp ≠ [] ∧ (∀ c ∈ ip, isDigitCh c = true) ∧
      (∀ c ∈ fp, isDigitCh c = true) ∧ l = ip ++ '.' :: fp ∧ v = decValue ip fp) := by
  unfold matchNumericSeconds at h
  by_cases hip : (l.takeWhile isDigitCh).isEmpty
  · rw [if_pos hip] at h
    exact absurd h (by simp)
  · rw [if_neg hip] at h
    split at h
    next hrest =>
      left
      injection h with hv
      have hl : l = l.takeWhile isDigitCh := by
        conv_lhs => rw [← List.takeWhile_append_dropWhile (p := isDigitCh) (l := l)]
        rw [hrest, List.append_nil]
      refine ⟨?_, ?_, ?_⟩
      · intro c hc
        rw [hl] at hc
        exact List.mem_takeWhile_imp hc
      · intro he
        rw [he] at hip
        simp at hip
      · rw [← hv]
        conv_rhs => rw [hl]
    next t hrest =>
      cases he1 : (t.takeWhile isDigitCh).isEmpty with
      | true => rw [if_pos (by simp [he1])] at h; exact absurd h (by simp)
      | false =>
        cases he2 : (t.dropWhile isDigitCh).isEmpty with
        | false => rw [if_pos (by simp [he2])] at h; exact absurd h (by simp)
        | true =>
          rw [if_neg (by simp [he1, he2])] at h
          injection h with hv
          right
          refine ⟨l.takeWhile isDigitCh, t.takeWhile isDigitCh, ?_, ?_, ?_, ?_, ?_, hv.symm⟩
          · intro he
            rw [he] at hip
            simp at hip
          · intro he
            rw [he] at he1
            simp at he1
          · exact fun c hc => List.mem_takeWhile_imp hc
          · exact fun c hc => List.mem_takeWhile_imp hc
          · have ht : t = t.takeWhile isDigitCh := by
              conv_lhs => rw [← List.takeWhile_append_dropWhile (p := isDigitCh) (l := t)]
              rw [List.isEmpty_iff.mp he2, List.append_nil]
            conv_lhs => rw [← List.takeWhile_append_dropWhile (p := isDigitCh) (l := l)]
            rw [hrest, ← ht]
    next x h1 h2 =>
      exact absurd h (by simp)

theorem matchNumericSeconds_chars {l : List Char} {v : ℚ}
    (h : matchNumericSeconds l = some v) :
    ∀ c ∈ l, isDigitCh c = true ∨ c = '.' := by
  intro c hc
  rcases matchNumericSeconds_inv h with ⟨hd, -, -⟩ | ⟨ip, fp, -, -, hipd, hfpd, hl, -⟩
  · exact Or.inl (hd c hc)
  · rw [hl] at hc
    rcases List.mem_append.mp hc with hc | hc
    · exact Or.inl (hipd c hc)
    · rcases List.mem_cons.mp hc with hc | hc
      · exact Or.inr hc
      · exact Or.inl (hfpd c hc)

theorem matchNumericSeconds_nonneg {l : List Char} {v : ℚ}
    (h : matchNumericSeconds l = some v) : 0 ≤ v := by
  rcases matchNumericSeconds_inv h with ⟨-, -, hv⟩ | ⟨ip, fp, -, -, -, -, -, hv⟩
  · rw [hv]; exact Nat.cast_nonneg _
  · rw [hv]; exact decValue_nonneg ip fp

theorem matchNumericSeconds_eq_none_of_mem {l : List Char} {c : Char} (hc : c ∈ l)
    (h1 : isDigitCh c = false) (h2 : c ≠ '.') : matchNumericSeconds l = none := by
  cases hm : matchNumericSeconds l with
  | none => rfl
  | some v =>
    rcases matchNumericSeconds_chars hm c hc with hd | hd
    · rw [h1] at hd; exact absurd hd (by simp)
    · exact absurd hd h2

theorem matchNumericSeconds_digits {ds : List Char} (hne : ds ≠ [])
    (hd : ∀ c ∈ ds, isDigitCh c = true) :
    matchNumericSeconds ds = some (natOfDigits ds : ℚ) := by
  have htw : ds.takeWhile isDigitCh = ds := by
    have := @takeWhile_append_eq isDigitCh ds [] hd rfl
    simpa using this
  have hdw : ds.dropWhile isDigitCh = [] := by
    have := @dropWhile_append_eq isDigitCh ds [] hd rfl
    simpa using this
  unfold matchNumericSeconds
  rw [htw, hdw]
  rw [if_neg (by simp [List.isEmpty_iff, hne])]

/-! ## Lemmas: `parseDecLit` and the unit matcher -/

theorem parseDecLit_none_of_head {l : List Char}
    (h : headFails isDigitCh l = true) : parseDecLit l = none := by
  unfold parseDecLit
  cases l with
  | nil => simp
  | cons c t =>
    have hc : isDigitCh c = false := by
      have h2 := h
      unfold headFails at h2
      simpa using h2
    rw [if_pos (by simp [List.takeWhile_cons, hc])]

theorem parseDecLit_render {lit : List Char} {v : ℚ}
    (h : matchNumericSeconds lit = some v) {c0 : Char}
    (hd : isDigitCh c0 = false) (hdot : c0 ≠ '.') (rest : List Char) :
    parseDecLit (lit ++ c0 :: rest) = some (v, c0 :: rest) := by
  rcases matchNumericSeconds_inv h with ⟨hdig, hne, hv⟩ | ⟨ip, fp, hip, hfp, hipd, hfpd, hl, hv⟩
  · have htw : (lit ++ c0 :: rest).takeWhile isDigitCh = lit :=
      takeWhile_append_eq hdig (by simp [headFails, hd])
    have hdw : (lit ++ c0 :: rest).dropWhile isDigitCh = c0 :: rest :=
      dropWhile_append_eq hdig (by simp [headFails, hd])
    unfold parseDecLit
    rw [htw, hdw, if_neg (by simp [List.isEmpty_iff, hne])]
    split
    next t2 heq =>
      exact absurd (List.cons.injEq .. ▸ heq).1 hdot
    next x h1 =>
      rw [hv]
  · subst hl
    have hassoc : (ip ++ '.' :: fp) ++ c0 :: rest = ip ++ '.' :: (fp ++ c0 :: rest) := by
      simp
    rw [hassoc]
    have htw : (ip ++ '.' :: (fp ++ c0 :: rest)).takeWhile isDigitCh = ip :=
      takeWhile_append_eq hipd (by simp only [headFails]; decide)
    have hdw : (ip ++ '.' :: (fp ++ c0 :: rest)).dropWhile isDigitCh =
        '.' :: (fp ++ c0 :: rest) :=
      dropWhile_append_eq hipd (by simp only [headFails]; decide)
    have htw2 : (fp ++ c0 :: rest).takeWhile isDigitCh = fp :=
      takeWhile_append_eq hfpd (by simp [headFails, hd])
    have hdw2 : (fp ++ c0 :: rest).dropWhile isDigitCh = c0 :: rest :=
      dropWhile_append_eq hfpd (by simp [headFails, hd])
    unfold parseDecLit
    rw [htw, hdw, if_neg (by simp [List.isEmpty_iff, hip])]
    split
    next t2 heq =>
      have ht2 : t2 = fp ++ c0 :: rest := ((List.cons.injEq .. ▸ heq).2).symm
      subst ht2
      rw [htw2, hdw2, if_neg (by simp [List.isEmpty_iff, hfp]), hv]
    next x h1 =>
      exact absurd rfl (h1 (fp ++ c0 :: rest))

theorem parseDecLit_consumed {l : List Char} {v : ℚ} {r : List Char}
    (h : parseDecLit l = some (v, r)) :
    ∃ pre, l = pre ++ r ∧ ∀ c ∈ pre, isDigitCh c = true ∨ c = '.' := by
  unfold parseDecLit at h
  by_cases hip : (l.takeWhile isDigitCh).isEmpty
  · rw [if_pos hip] at h
    exact absurd h (by simp)
  · rw [if_neg hip] at h
    split at h
    next t2 hrest =>
      split at h
      next hfp =>
        injection h with h2
        have hr : r = '.' :: t2 := (Prod.mk.injEq .. ▸ h2).2.symm
        refine ⟨l.takeWhile isDigitCh, ?_, ?_⟩
        · rw [hr, ← hrest, List.takeWhile_append_dropWhile]
        · exact fun c hc => Or.inl (List.mem_takeWhile_imp hc)
      next hfp =>
        injection h with h2
        have hr : r = t2.dropWhile isDigitCh := (Prod.mk.injEq .. ▸ h2).2.symm
        refine ⟨l.takeWhile isDigitCh ++ '.' :: t2.takeWhile isDigitCh, ?_, ?_⟩
        · rw [hr, List.append_assoc, List.cons_append, List.takeWhile_append_dropWhile,
            ← hrest, List.takeWhile_append_dropWhile]
        · intro c hc
          rcases List.mem_append.mp hc with hc | hc
          · exact Or.inl (List.mem_takeWhile_imp hc)
          · rcases List.mem_cons.mp hc with hc | hc
            · exact Or.inr hc
            · exact Or.inl (List.mem_takeWhile_imp hc)
    next x h1 =>
      injection h with h2
      have hr : r = l.dropWhile isDigitCh := (Prod.mk.injEq .. ▸ h2).2.symm
      refine ⟨l.takeWhile isDigitCh, ?_, ?_⟩
      · rw [hr, List.takeWhile_append_dropWhile]
      · exact fun c hc => Or.inl (List.mem_takeWhile_imp hc)

theorem unitStage_hit {lit : List Char} {v : ℚ}
    (h : matchNumericSeconds lit = some v) (lo hi : Char)
    (hd : isDigitCh lo = false) (hdot : lo ≠ '.') (rest : List Char) :
    unitStage (lit ++ lo :: rest) lo hi = (some v, rest) := by
  unfold unitStage
  rw [parseDecLit_render h hd hdot rest]
  simp

theorem unitStage_miss_of_head {l : List Char} {lo hi : Char}
    (h : ∀ v c rest, parseDecLit l = some (v, c :: rest) → c ≠ lo ∧ c ≠ hi) :
    unitStage l lo hi = (none, l) := by
  cases hp : parseDecLit l with
  | none => simp [unitStage, hp]
  | some vr =>
    obtain ⟨v, r⟩ := vr
    cases r with
    | nil => simp [unitStage, hp]
    | cons c rest =>
      obtain ⟨h1, h2⟩ := h v c rest hp
      simp [unitStage, hp, h1, h2]

theorem unitStage_miss_render {lit : List Char} {v : ℚ}
    (h : matchNumericSeconds lit = some v) (c0 lo hi : Char)
    (hd : isDigitCh c0 = false) (hdot : c0 ≠ '.')
    (h1 : c0 ≠ lo) (h2 : c0 ≠ hi) (rest : List Char) :
    unitStage (lit ++ c0 :: rest) lo hi = (none, lit ++ c0 :: rest) := by
  apply unitStage_miss_of_head
  intro v2 c rest2 hp
  rw [parseDecLit_render h hd hdot rest] at hp
  injection hp with hp2
  have hc : c = c0 := ((List.cons.injEq .. ▸ (Prod.mk.injEq .. ▸ hp2).2).1).symm
  rw [hc]
  exact ⟨h1, h2⟩

theorem unitStage_miss_head_noDigit {l : List Char} (lo hi : Char)
    (h : headFails isDigitCh l = true) : unitStage l lo hi = (none, l) := by
  unfold unitStage
  rw [parseDecLit_none_of_head h]

theorem unitStage_consumed (l : List Char) (lo hi : Char) {g : Option ℚ} {l2 : List Char}
    (h : unitStage l lo hi = (g, l2)) :
    ∃ pre, l = pre ++ l2 ∧
      ∀ c ∈ pre, isDigitCh c = true ∨ c = '.' ∨ c = lo ∨ c = hi := by
  cases hp : parseDecLit l with
  | none =>
    simp only [unitStage, hp] at h
    injection h with ha hb
    exact ⟨[], by simp [hb]⟩
  | some vr =>
    obtain ⟨v, r⟩ := vr
    cases r with
    | nil =>
      simp only [unitStage, hp] at h
      injection h with ha hb
      exact ⟨[], by simp [hb]⟩
    | cons c rest =>
      simp only [unitStage, hp, Bool.or_eq_true, decide_eq_true_eq] at h
      by_cases hc : c = lo ∨ c = hi
      · rw [if_pos hc] at h
        injection h with ha hb
        obtain ⟨pre0, hl0, hm0⟩ := parseDecLit_consumed hp
        refine ⟨pre0 ++ [c], by rw [hl0, hb]; simp, ?_⟩
        intro x hx
        rcases List.mem_append.mp hx with hx | hx
        · rcases hm0 x hx with hd | hd
          · exact Or.inl hd
          · exact Or.inr (Or.inl hd)
        · rw [List.mem_singleton.mp hx]
          rcases hc with hd | hd
          · exact Or.inr (Or.inr (Or.inl hd))
          · exact Or.inr (Or.inr (Or.inr hd))
      · rw [if_neg hc] at h
        injection h with ha hb
        exact ⟨[], by simp [hb]⟩

theorem matchUnit_chars {l : List Char} {g : Option ℚ × Option ℚ × Option ℚ}
    (h : matchUnit l = some g) :
    ∀ c ∈ l, isDigitCh c = true ∨ c = '.' ∨
      c = 'h' ∨ c = 'H' ∨ c = 'm' ∨ c = 'M' ∨ c = 's' ∨ c = 'S' := by
  unfold matchUnit at h
  by_cases hif : (unitStage (unitStage (unitStage l 'h' 'H').2 'm' 'M').2 's' 'S').2.isEmpty
  · obtain ⟨p1, hl1, hm1⟩ :=
      @unitStage_consumed l 'h' 'H' (unitStage l 'h' 'H').1
        (unitStage l 'h' 'H').2 rfl
    obtain ⟨p2, hl2, hm2⟩ :=
      @unitStage_consumed (unitStage l 'h' 'H').2 'm' 'M'
        (unitStage (unitStage l 'h' 'H').2 'm' 'M').1
        (unitStage (unitStage l 'h' 'H').2 'm' 'M').2 rfl
    obtain ⟨p3, hl3, hm3⟩ :=
      @unitStage_consumed (unitStage (unitStage l 'h' 'H').2 'm' 'M').2 's' 'S'
        (unitStage (unitStage (unitStage l 'h' 'H').2 'm' 'M').2 's' 'S').1
        (unitStage (unitStage (unitStage l 'h' 'H').2 'm' 'M').2 's' 'S').2 rfl
    intro c hc
    rw [hl1, hl2, hl3, List.isEmpty_iff.mp hif, List.append_nil] at hc
    rcases List.mem_append.mp hc with hc | hc
    · rcases hm1 c hc with hd | hd | hd | hd
      · exact Or.inl hd
      · exact Or.inr (Or.inl hd)
      · exact Or.inr (Or.inr (Or.inl hd))
      · exact Or.inr (Or.inr (Or.inr (Or.inl hd)))
    rcases List.mem_append.mp hc with hc | hc
    · rcases hm2 c hc with hd | hd | hd | hd
      · exact Or.inl hd
      · exact Or.inr (Or.inl hd)
      · exact Or.inr (Or.inr (Or.inr (Or.inr (Or.inl hd))))
      · exact Or.inr (Or.inr (Or.inr (Or.inr (Or.inr (Or.inl hd)))))
    · rcases hm3 c hc with hd | hd | hd | hd
      · exact Or.inl hd
      · exact Or.inr (Or.inl hd)
      · exact Or.inr (Or.inr (Or.inr (Or.inr (Or.inr (Or.inr (Or.inl hd))))))
      · exact Or.inr (Or.inr (Or.inr (Or.inr (Or.inr (Or.inr (Or.inr hd))))))
  · rw [if_neg hif] at h
    exact absurd h (by simp)

theorem matchUnit_eq_none_of_mem {l : List Char} {c : Char} (hc : c ∈ l)
    (h1 : isDigitCh c = false) (h2 : c ≠ '.') (h3 : c ≠ 'h') (h4 : c ≠ 'H')
    (h5 : c ≠ 'm') (h6 : c ≠ 'M') (h7 : c ≠ 's') (h8 : c ≠ 'S') :
    matchUnit l = none := by
  cases hm : matchUnit l with
  | none => rfl
  | some g =>
    rcases matchUnit_chars hm c hc with hd | hd | hd | hd | hd | hd | hd | hd
    · rw [h1] at hd; exact absurd hd (by simp)
    · exact absurd hd h2
    · exact absurd hd h3
    · exact absurd hd h4
    · exact absurd hd h5
    · exact absurd hd h6
    · exact absurd hd h7
    · exact absurd hd h8

/-! ## Lemmas: character classes -/

theorem not_isWs_of_isDigitCh {c : Char} (h : isDigitCh c = true) : isWs c = false := by
  by_contra hw
  have hw2 : isWs c = true := by
    cases hx : isWs c
    · exact absurd hx hw
    · rfl
  unfold isWs at hw2
  simp only [Bool.or_eq_true, decide_eq_true_eq] at hw2
  rcases hw2 with ((((((hc | hc) | hc) | hc) | hc) | hc) | hc) <;>
    (subst hc; exact absurd h (by decide))

theorem not_isWs_of_digit_or_dot {c : Char} (h : isDigitCh c = true ∨ c = '.') :
    isWs c = false := by
  rcases h with h | h
  · exact not_isWs_of_isDigitCh h
  · subst h; decide

/-! ## Lemmas: evaluating the unit matcher on rendered expressions -/

theorem matchUnit_renderUnits (oh om os : Option (List Char)) (vh vm vs : ℚ)
    (hh : ∀ l, oh = some l → matchNumericSeconds l = some vh)
    (hm : ∀ l, om = some l → matchNumericSeconds l = some vm)
    (hs : ∀ l, os = some l → matchNumericSeconds l = some vs) :
    matchUnit (renderUnits oh om os) =
      some (oh.map (fun _ => vh), om.map (fun _ => vm), os.map (fun _ => vs)) := by
  cases oh with
  | some lh =>
    cases om with
    | some lm =>
      cases os with
      | some ls =>
        have hL : renderUnits (some lh) (some lm) (some ls) =
            lh ++ 'h' :: (lm ++ 'm' :: (ls ++ 's' :: [])) := by
          simp [renderUnits, renderUnit]
        have e1 := unitStage_hit (hh lh rfl) 'h' 'H' (by decide) (by decide)
          (lm ++ 'm' :: (ls ++ 's' :: []))
        have e2 := unitStage_hit (hm lm rfl) 'm' 'M' (by decide) (by decide)
          (ls ++ 's' :: [])
        have e3 := unitStage_hit (hs ls rfl) 's' 'S' (by decide) (by decide)
          ([] : List Char)
        simp [matchUnit, hL, e1, e2, e3]
      | none =>
        have hL : renderUnits (some lh) (some lm) none =
            lh ++ 'h' :: (lm ++ 'm' :: []) := by
          simp [renderUnits, renderUnit]
        have e1 := unitStage_hit (hh lh rfl) 'h' 'H' (by decide) (by decide)
          (lm ++ 'm' :: [])
        have e2 := unitStage_hit (hm lm rfl) 'm' 'M' (by decide) (by decide)
          ([] : List Char)
        have e3 := unitStage_miss_head_noDigit (l := []) 's' 'S' rfl
        simp [matchUnit, hL, e1, e2, e3]
    | none =>
      cases os with
      | some ls =>
        have hL : renderUnits (some lh) none (some ls) =
            lh ++ 'h' :: (ls ++ 's' :: []) := by
          simp [renderUnits, renderUnit]
        have e1 := unitStage_hit (hh lh rfl) 'h' 'H' (by decide) (by decide)
          (ls ++ 's' :: [])
        have e2 := unitStage_miss_render (hs ls rfl) 's' 'm' 'M'
          (by decide) (by decide) (by decide) (by decide) ([] : List Char)
        have e3 := unitStage_hit (hs ls rfl) 's' 'S' (by decide) (by decide)
          ([] : List Char)
        simp [matchUnit, hL, e1, e2, e3]
      | none =>
        have hL : renderUnits (some lh) none none = lh ++ 'h' :: [] := by
          simp [renderUnits, renderUnit]
        have e1 := unitStage_hit (hh lh rfl) 'h' 'H' (by decide) (by decide)
          ([] : List Char)
        have e2 := unitStage_miss_head_noDigit (l := []) 'm' 'M' rfl
        have e3 := unitStage_miss_head_noDigit (l := []) 's' 'S' rfl
        simp [matchUnit, hL, e1, e2, e3]
  | none =>
    cases om with
    | some lm =>
      cases os with
      | some ls =>
        have hL : renderUnits none (some lm) (some ls) =
            lm ++ 'm' :: (ls ++ 's' :: []) := by
          simp [renderUnits, renderUnit]
        have e1 := unitStage_miss_render (hm lm rfl) 'm' 'h' 'H'
          (by decide) (by decide) (by decide) (by decide) (ls ++ 's' :: [])
        have e2 := unitStage_hit (hm lm rfl) 'm' 'M' (by decide) (by decide)
          (ls ++ 's' :: [])
        have e3 := unitStage_hit (hs ls rfl) 's' 'S' (by decide) (by decide)
          ([] : List Char)
        simp [matchUnit, hL, e1, e2, e3]
      | none =>
        have hL : renderUnits none (some lm) none = lm ++ 'm' :: [] := by
          simp [renderUnits, renderUnit]
        have e1 := unitStage_miss_render (hm lm rfl) 'm' 'h' 'H'
          (by decide) (by decide) (by decide) (by decide) ([] : List Char)
        have e2 := unitStage_hit (hm lm rfl) 'm' 'M' (by decide) (by decide)
          ([] : List Char)
        have e3 := unitStage_miss_head_noDigit (l := []) 's' 'S' rfl
        simp [matchUnit, hL, e1, e2, e3]
    | none =>
      cases os with
      | some ls =>
        have hL : renderUnits none none (some ls) = ls ++ 's' :: [] := by
          simp [renderUnits, renderUnit]
        have e1 := unitStage_miss_render (hs ls rfl) 's' 'h' 'H'
          (by decide) (by decide) (by decide) (by decide) ([] : List Char)
        have e2 := unitStage_miss_render (hs ls rfl) 's' 'm' 'M'
          (by decide) (by decide) (by decide) (by decide) ([] : List Char)
        have e3 := unitStage_hit (hs ls rfl) 's' 'S' (by decide) (by decide)
          ([] : List Char)
        simp [matchUnit, hL, e1, e2, e3]
      | none =>
        rfl

/-! ## Lemmas: `jsParseFloatFinite` -/

theorem parseMantissa_digits {ds : List Char} (hne : ds ≠ [])
    (hd : ∀ c ∈ ds, isDigitCh c = true) :
    parseMantissa ds = some ((natOfDigits ds : ℚ), []) := by
  cases ds with
  | nil => exact absurd rfl hne
  | cons c t =>
    have hc : isDigitCh c = true := hd c (by simp)
    have hcdot : c ≠ '.' := by
      intro he
      rw [he] at hc
      exact absurd hc (by decide)
    have htw : (c :: t).takeWhile isDigitCh = c :: t := by
      have := @takeWhile_append_eq isDigitCh (c :: t) [] hd rfl
      simpa using this
    have hdw : (c :: t).dropWhile isDigitCh = [] := by
      have := @dropWhile_append_eq isDigitCh (c :: t) [] hd rfl
      simpa using this
    unfold parseMantissa
    split
    next t2 heq =>
      exact absurd (List.cons.injEq .. ▸ heq).1 hcdot
    next x h1 =>
      rw [htw, hdw, if_neg (by simp)]

theorem parseMantissa_fst_nonneg {l : List Char} {m : ℚ} {r : List Char}
    (h : parseMantissa l = some (m, r)) : 0 ≤ m := by
  unfold parseMantissa at h
  split at h
  · split at h
    · exact absurd h (by simp)
    · injection h with h2
      obtain ⟨hm, -⟩ := Prod.mk.inj h2
      rw [← hm]
      exact decValue_nonneg _ _
  · by_cases hip : (l.takeWhile isDigitCh).isEmpty
    · rw [if_pos hip] at h
      exact absurd h (by simp)
    · rw [if_neg hip] at h
      split at h
      · injection h with h2
        obtain ⟨hm, -⟩ := Prod.mk.inj h2
        rw [← hm]
        exact decValue_nonneg _ _
      · injection h with h2
        obtain ⟨hm, -⟩ := Prod.mk.inj h2
        rw [← hm]
        exact Nat.cast_nonneg _

theorem mantissaValue_nonneg {mr : ℚ × List Char} (h : 0 ≤ mr.1) :
    0 ≤ mantissaValue mr :=
  mul_nonneg h (le_of_lt (pow10Z_pos _))

theorem jsParseFloatFinite_nil : jsParseFloatFinite [] = none := by decide

theorem jsParseFloatFinite_digits {ds : List Char} (hne : ds ≠ [])
    (hd : ∀ c ∈ ds, isDigitCh c = true) :
    jsParseFloatFinite ds = some (natOfDigits ds : ℚ) := by
  have hdw : ds.dropWhile isWs = ds :=
    dropWhile_eq_self_of_all (fun c hc => not_isWs_of_isDigitCh (hd c hc))
  unfold jsParseFloatFinite
  split
  next t heq =>
    rw [hdw] at heq
    have := hd '+' (by rw [heq]; simp)
    exact absurd this (by decide)
  next t heq =>
    rw [hdw] at heq
    have := hd '-' (by rw [heq]; simp)
    exact absurd this (by decide)
  next x h1 h2 =>
    rw [hdw, parseMantissa_digits hne hd]
    show some (mantissaValue ((natOfDigits ds : ℚ), [])) = _
    unfold mantissaValue
    show some ((natOfDigits ds : ℚ) * pow10Z (parseExpPart [])) = _
    norm_num [parseExpPart, pow10Z, pow10]

theorem jsParseFloatFinite_nonneg {l : List Char} {v : ℚ}
    (h : jsParseFloatFinite l = some v) (hminus : '-' ∉ l) : 0 ≤ v := by
  unfold jsParseFloatFinite at h
  split at h
  next t heq =>
    cases hp : parseMantissa t with
    | none => rw [hp] at h; exact absurd h (by simp)
    | some mr =>
      rw [hp] at h
      simp only [Option.map_some', Option.some.injEq] at h
      rw [← h]
      exact mantissaValue_nonneg (parseMantissa_fst_nonneg (m := mr.1) (r := mr.2)
        (by rw [hp]))
  next t heq =>
    exfalso
    apply hminus
    have h1 : '-' ∈ l.dropWhile isWs := by rw [heq]; simp
    exact (List.dropWhile_sublist (p := isWs)).mem h1
  next x h1 h2 =>
    cases hp : parseMantissa (l.dropWhile isWs) with
    | none => rw [hp] at h; exact absurd h (by simp)
    | some mr =>
      rw [hp] at h
      simp only [Option.map_some', Option.some.injEq] at h
      rw [← h]
      exact mantissaValue_nonneg (parseMantissa_fst_nonneg (m := mr.1) (r := mr.2)
        (by rw [hp]))

/-! ## Lemmas: branch structure of `parseTimeToSeconds` -/

theorem isEmpty_false_of_ne {l : List Char} (h : l ≠ []) : l.isEmpty = false := by
  cases l with
  | nil => exact absurd rfl h
  | cons c t => rfl

theorem contains_of_mem {l : List Char} {c : Char} (h : c ∈ l) :
    l.contains c = true := by
  simp only [List.contains, List.elem_eq_mem, decide_eq_true_eq]
  exact h

theorem contains_false_of_not_mem {l : List Char} {c : Char} (h : c ∉ l) :
    l.contains c = false := by
  simp only [List.contains, List.elem_eq_mem, decide_eq_false_iff_not]
  exact h

theorem parseTimeToSeconds_empty {s : String} (h : trimList s.toList = []) :
    parseTimeToSeconds s = .error "Time is empty" := by
  simp only [parseTimeToSeconds, h, List.isEmpty_nil, if_true]

theorem parseTimeToSeconds_numeric {s : String} {v : ℚ}
    (hne : trimList s.toList ≠ [])
    (hnum : matchNumericSeconds (trimList s.toList) = some v) :
    parseTimeToSeconds s = .ok v := by
  have h1 : (trimList s.toList).isEmpty = false := isEmpty_false_of_ne hne
  simp only [parseTimeToSeconds, h1, hnum, Bool.false_eq_true, if_false]

theorem parseTimeToSeconds_unit {s : String} {gh gm gs : Option ℚ}
    (hne : trimList s.toList ≠ [])
    (hnum : matchNumericSeconds (trimList s.toList) = none)
    (hunit : matchUnit (trimList s.toList) = some (gh, gm, gs))
    (hpos : 0 < (gh.getD 0) * 3600 + (gm.getD 0) * 60 + (gs.getD 0)) :
    parseTimeToSeconds s = .ok ((gh.getD 0) * 3600 + (gm.getD 0) * 60 + (gs.getD 0)) := by
  have h1 : (trimList s.toList).isEmpty = false := isEmpty_false_of_ne hne
  simp only [parseTimeToSeconds, h1, hnum, hunit, Bool.false_eq_true, if_false]
  rw [if_pos hpos]

theorem parseTimeToSeconds_colon_unitNone {s : String}
    (hne : trimList s.toList ≠ [])
    (hnum : matchNumericSeconds (trimList s.toList) = none)
    (hunit : matchUnit (trimList s.toList) = none)
    (hcolon : ':' ∈ trimList s.toList) :
    parseTimeToSeconds s = colonEval s := by
  have h1 : (trimList s.toList).isEmpty = false := isEmpty_false_of_ne hne
  have h4 : (trimList s.toList).contains ':' = true := contains_of_mem hcolon
  simp only [parseTimeToSeconds, h1, hnum, hunit, h4, Bool.false_eq_true, if_false, if_true]

theorem parseTimeToSeconds_colon_unitNonpos {s : String} {gh gm gs : Option ℚ}
    (hne : trimList s.toList ≠ [])
    (hnum : matchNumericSeconds (trimList s.toList) = none)
    (hunit : matchUnit (trimList s.toList) = some (gh, gm, gs))
    (hpos : ¬ 0 < (gh.getD 0) * 3600 + (gm.getD 0) * 60 + (gs.getD 0))
    (hcolon : ':' ∈ trimList s.toList) :
    parseTimeToSeconds s = colonEval s := by
  have h1 : (trimList s.toList).isEmpty = false := isEmpty_false_of_ne hne
  have h4 : (trimList s.toList).contains ':' = true := contains_of_mem hcolon
  simp only [parseTimeToSeconds, h1, hnum, hunit, h4, Bool.false_eq_true, if_false]
  rw [if_neg hpos]
  simp

theorem parseTimeToSeconds_nocolon_unitNone {s : String}
    (hne : trimList s.toList ≠ [])
    (hnum : matchNumericSeconds (trimList s.toList) = none)
    (hunit : matchUnit (trimList s.toList) = none)
    (hcolon : ':' ∉ trimList s.toList) :
    parseTimeToSeconds s = .error ("Unsupported time format: " ++ s) := by
  have h1 : (trimList s.toList).isEmpty = false := isEmpty_false_of_ne hne
  have h4 : (trimList s.toList).contains ':' = false := contains_false_of_not_mem hcolon
  simp only [parseTimeToSeconds, h1, hnum, hunit, h4, Bool.false_eq_true, if_false]

theorem parseTimeToSeconds_nocolon_unitNonpos {s : String} {gh gm gs : Option ℚ}
    (hne : trimList s.toList ≠ [])
    (hnum : matchNumericSeconds (trimList s.toList) = none)
    (hunit : matchUnit (trimList s.toList) = some (gh, gm, gs))
    (hpos : ¬ 0 < (gh.getD 0) * 3600 + (gm.getD 0) * 60 + (gs.getD 0))
    (hcolon : ':' ∉ trimList s.toList) :
    parseTimeToSeconds s = .error ("Unsupported time format: " ++ s) := by
  have h1 : (trimList s.toList).isEmpty = false := isEmpty_false_of_ne hne
  have h4 : (trimList s.toList).contains ':' = false := contains_false_of_not_mem hcolon
  simp only [parseTimeToSeconds, h1, hnum, hunit, h4, Bool.false_eq_true, if_false]
  rw [if_neg hpos]

theorem parseTimeToSeconds_eq_colonEval {s : String}
    (hcolon : ':' ∈ trimList s.toList) : parseTimeToSeconds s = colonEval s := by
  have hne : trimList s.toList ≠ [] := List.ne_nil_of_mem hcolon
  have hnum : matchNumericSeconds (trimList s.toList) = none :=
    matchNumericSeconds_eq_none_of_mem hcolon (by decide) (by decide)
  have hunit : matchUnit (trimList s.toList) = none :=
    matchUnit_eq_none_of_mem hcolon (by decide) (by decide) (by decide) (by decide)
      (by decide) (by decide) (by decide) (by decide)
  exact parseTimeToSeconds_colon_unitNone hne hnum hunit hcolon

/-! ## Lemmas: `colonEval` -/

theorem jsParseFloat_isEmpty_false {A : List Char} {va : ℚ}
    (ha : jsParseFloatFinite A = some va) : A.isEmpty = false := by
  cases A with
  | nil => rw [jsParseFloatFinite_nil] at ha; exact absurd ha (by simp)
  | cons c t => rfl

theorem colonEval_two {s : String} {A B : List Char} {va vb : ℚ}
    (hparts : (splitChar (trimList s.toList) ':').map trimList = [A, B])
    (ha : jsParseFloatFinite A = some va) (hb : jsParseFloatFinite B = some vb) :
    colonEval s = .ok (va * 60 + vb) := by
  simp only [colonEval, hparts, List.any_cons, List.any_nil,
    jsParseFloat_isEmpty_false ha, jsParseFloat_isEmpty_false hb, Bool.or_false,
    Bool.false_eq_true, if_false, ha, hb]

theorem colonEval_three {s : String} {A B C : List Char} {va vb vc : ℚ}
    (hparts : (splitChar (trimList s.toList) ':').map trimList = [A, B, C])
    (ha : jsParseFloatFinite A = some va) (hb : jsParseFloatFinite B = some vb)
    (hc : jsParseFloatFinite C = some vc) :
    colonEval s = .ok (va * 3600 + vb * 60 + vc) := by
  simp only [colonEval, hparts, List.any_cons, List.any_nil,
    jsParseFloat_isEmpty_false ha, jsParseFloat_isEmpty_false hb,
    jsParseFloat_isEmpty_false hc, Bool.or_false, Bool.false_eq_true, if_false,
    ha, hb, hc]

theorem colonEval_empty_part {s : String}
    (hany : ((splitChar (trimList s.toList) ':').map trimList).any
      (fun p => p.isEmpty) = true) :
    colonEval s = .error "Invalid time format" := by
  simp only [colonEval, hany, if_true]

theorem colonEval_ok_length {s : String} {v : ℚ} (h : colonEval s = .ok v) :
    ((splitChar (trimList s.toList) ':').map trimList).length = 2 ∨
    ((splitChar (trimList s.toList) ':').map trimList).length = 3 := by
  simp only [colonEval] at h
  split at h
  · exact absurd h (by simp)
  · split at h
    next a b heq =>
      left
      rw [heq]
      rfl
    next a b c heq =>
      right
      rw [heq]
      rfl
    next x h1 h2 =>
      exact absurd h (by simp)

theorem colonEval_ok_inv {s : String} {v : ℚ} (h : colonEval s = .ok v) :
    (∃ A B va vb, (splitChar (trimList s.toList) ':').map trimList = [A, B] ∧
      jsParseFloatFinite A = some va ∧ jsParseFloatFinite B = some vb ∧
      v = va * 60 + vb) ∨
    (∃ A B C va vb vc,
      (splitChar (trimList s.toList) ':').map trimList = [A, B, C] ∧
      jsParseFloatFinite A = some va ∧ jsParseFloatFinite B = some vb ∧
      jsParseFloatFinite C = some vc ∧ v = va * 3600 + vb * 60 + vc) := by
  simp only [colonEval] at h
  split at h
  · exact absurd h (by simp)
  · split at h
    next a b heq =>
      split at h
      next va vb heqa heqb =>
        left
        injection h with hv
        exact ⟨a, b, va, vb, heq, heqa, heqb, hv.symm⟩
      next h1 =>
        exact absurd h (by simp)
    next a b c heq =>
      split at h
      next va vb vc heqa heqb heqc =>
        right
        injection h with hv
        exact ⟨a, b, c, va, vb, vc, heq, heqa, heqb, heqc, hv.symm⟩
      next h1 =>
        exact absurd h (by simp)
    next x h1 h2 =>
      exact absurd h (by simp)

theorem colonEval_float_fail {s : String}
    (hnoemp : ((splitChar (trimList s.toList) ':').map trimList).any
      (fun p => p.isEmpty) = false)
    (hfail : ∃ p ∈ (splitChar (trimList s.toList) ':').map trimList,
      jsParseFloatFinite p = none) :
    colonEval s = .error ("Unsupported time format: " ++ s) := by
  obtain ⟨p, hp2, hpf⟩ := hfail
  simp only [colonEval]
  rw [if_neg (by rw [hnoemp]; simp)]
  split
  next a b heq =>
    split
    next va vb heqa heqb =>
      exfalso
      rw [heq] at hp2
      rcases List.mem_cons.mp hp2 with hx | hx
      · rw [hx, heqa] at hpf
        exact absurd hpf (by simp)
      · rcases List.mem_cons.mp hx with hy | hy
        · rw [hy, heqb] at hpf
          exact absurd hpf (by simp)
        · simp at hy
    next h1 => rfl
  next a b c heq =>
    split
    next va vb vc heqa heqb heqc =>
      exfalso
      rw [heq] at hp2
      rcases List.mem_cons.mp hp2 with hx | hx
      · rw [hx, heqa] at hpf
        exact absurd hpf (by simp)
      · rcases List.mem_cons.mp hx with hy | hy
        · rw [hy, heqb] at hpf
          exact absurd hpf (by simp)
        · rcases List.mem_cons.mp hy with hz | hz
          · rw [hz, heqc] at hpf
            exact absurd hpf (by simp)
          · simp at hz
    next h1 => rfl
  next x h1 h2 => rfl

theorem parseTimeToSeconds_ok_inv {s : String} {v : ℚ}
    (h : parseTimeToSeconds s = .ok v) :
    (∃ w, matchNumericSeconds (trimList s.toList) = some w ∧ v = w) ∨
    (∃ gh gm gs, matchUnit (trimList s.toList) = some (gh, gm, gs) ∧
      v = (gh.getD 0) * 3600 + (gm.getD 0) * 60 + (gs.getD 0) ∧ 0 < v) ∨
    colonEval s = .ok v := by
  by_cases hemp : trimList s.toList = []
  · rw [parseTimeToSeconds_empty hemp] at h
    exact absurd h (by simp)
  · cases hm : matchNumericSeconds (trimList s.toList) with
    | some w =>
      rw [parseTimeToSeconds_numeric hemp hm] at h
      injection h with hv
      exact Or.inl ⟨w, rfl, hv.symm⟩
    | none =>
      cases hu : matchUnit (trimList s.toList) with
      | some g =>
        obtain ⟨gh, gm, gs⟩ := g
        by_cases hpos : 0 < (gh.getD 0) * 3600 + (gm.getD 0) * 60 + (gs.getD 0)
        · rw [parseTimeToSeconds_unit hemp hm hu hpos] at h
          injection h with hv
          exact Or.inr (Or.inl ⟨gh, gm, gs, rfl, hv.symm, hv ▸ hpos⟩)
        · by_cases hcolon : ':' ∈ trimList s.toList
          · rw [parseTimeToSeconds_colon_unitNonpos hemp hm hu hpos hcolon] at h
            exact Or.inr (Or.inr h)
          · rw [parseTimeToSeconds_nocolon_unitNonpos hemp hm hu hpos hcolon] at h
            exact absurd h (by simp)
      | none =>
        by_cases hcolon : ':' ∈ trimList s.toList
        · rw [parseTimeToSeconds_colon_unitNone hemp hm hu hcolon] at h
          exact Or.inr (Or.inr h)
        · rw [parseTimeToSeconds_nocolon_unitNone hemp hm hu hcolon] at h
          exact absurd h (by simp)

/-! ## Lemmas: parsing rendered `HH:MM:SS` strings (for `secondsToHms`) -/

theorem colon_not_mem_digits {l : List Char} (hd : ∀ c ∈ l, isDigitCh c = true) :
    ':' ∉ l := by
  intro hc
  have := hd ':' hc
  exact absurd this (by decide)

theorem secondsToHms_natCast (n : ℕ) :
    secondsToHms (n : ℚ) = String.mk
      (pad2 (natToChars (n / 3600)) ++ ':' :: pad2 (natToChars (n % 3600 / 60)) ++
        ':' :: pad2 (natToChars (n % 60))) := by
  unfold secondsToHms
  rw [Int.floor_natCast]
  have h2 : (max 0 (n : ℤ)).toNat = n := by omega
  rw [h2]

theorem parse_hms_digits (H M S : List Char)
    (hH : ∀ c ∈ H, isDigitCh c = true) (hM : ∀ c ∈ M, isDigitCh c = true)
    (hS : ∀ c ∈ S, isDigitCh c = true)
    (hHne : H ≠ []) (hMne : M ≠ []) (hSne : S ≠ []) :
    parseTimeToSeconds (String.mk (H ++ ':' :: (M ++ ':' :: S))) =
      .ok ((natOfDigits H : ℚ) * 3600 + (natOfDigits M : ℚ) * 60 +
        (natOfDigits S : ℚ)) := by
  have hnws : ∀ c ∈ H ++ ':' :: (M ++ ':' :: S), isWs c = false := by
    intro c hc
    rcases List.mem_append.mp hc with hc | hc
    · exact not_isWs_of_isDigitCh (hH c hc)
    · rcases List.mem_cons.mp hc with hc | hc
      · rw [hc]; decide
      · rcases List.mem_append.mp hc with hc | hc
        · exact not_isWs_of_isDigitCh (hM c hc)
        · rcases List.mem_cons.mp hc with hc | hc
          · rw [hc]; decide
          · exact not_isWs_of_isDigitCh (hS c hc)
  have htrim : trimList (String.mk (H ++ ':' :: (M ++ ':' :: S))).toList =
      H ++ ':' :: (M ++ ':' :: S) := trimList_eq_self_of_no_ws hnws
  have hcolon : ':' ∈ trimList (String.mk (H ++ ':' :: (M ++ ':' :: S))).toList := by
    rw [htrim]
    exact List.mem_append_right _ (List.mem_cons_self _ _)
  have hsplit : splitChar
      (trimList (String.mk (H ++ ':' :: (M ++ ':' :: S))).toList) ':' = [H, M, S] := by
    rw [htrim]
    rw [splitChar_append (M ++ ':' :: S) (colon_not_mem_digits hH)]
    rw [splitChar_append S (colon_not_mem_digits hM)]
    rw [splitChar_no_sep (colon_not_mem_digits hS)]
  have hparts : (splitChar (trimList
      (String.mk (H ++ ':' :: (M ++ ':' :: S))).toList) ':').map trimList
      = [H, M, S] := by
    rw [hsplit]
    simp only [List.map_cons, List.map_nil]
    rw [trimList_eq_self_of_no_ws (fun c hc => not_isWs_of_isDigitCh (hH c hc)),
      trimList_eq_self_of_no_ws (fun c hc => not_isWs_of_isDigitCh (hM c hc)),
      trimList_eq_self_of_no_ws (fun c hc => not_isWs_of_isDigitCh (hS c hc))]
  rw [parseTimeToSeconds_eq_colonEval hcolon]
  exact colonEval_three hparts (jsParseFloatFinite_digits hHne hH)
    (jsParseFloatFinite_digits hMne hM) (jsParseFloatFinite_digits hSne hS)

theorem parse_secondsToHms_natCast (n : ℕ) :
    parseTimeToSeconds (secondsToHms (n : ℚ)) = .ok (n : ℚ) := by
  rw [secondsToHms_natCast]
  have hassoc : pad2 (natToChars (n / 3600)) ++ ':' :: pad2 (natToChars (n % 3600 / 60))
      ++ ':' :: pad2 (natToChars (n % 60)) =
      pad2 (natToChars (n / 3600)) ++ ':' :: (pad2 (natToChars (n % 3600 / 60))
      ++ ':' :: pad2 (natToChars (n % 60))) := by
    simp
  rw [hassoc]
  have h := parse_hms_digits (pad2 (natToChars (n / 3600)))
    (pad2 (natToChars (n % 3600 / 60))) (pad2 (natToChars (n % 60)))
    (pad2_all_digits (natToChars_all_digits _))
    (pad2_all_digits (natToChars_all_digits _))
    (pad2_all_digits (natToChars_all_digits _))
    (pad2_ne_nil _) (pad2_ne_nil _) (pad2_ne_nil _)
  rw [h]
  congr 1
  have e1 : natOfDigits (pad2 (natToChars (n / 3600))) = n / 3600 := by
    rw [natOfDigits_pad2, natOfDigits_natToChars]
  have e2 : natOfDigits (pad2 (natToChars (n % 3600 / 60))) = n % 3600 / 60 := by
    rw [natOfDigits_pad2, natOfDigits_natToChars]
  have e3 : natOfDigits (pad2 (natToChars (n % 60))) = n % 60 := by
    rw [natOfDigits_pad2, natOfDigits_natToChars]
  rw [e1, e2, e3]
  have harith : (n / 3600) * 3600 + (n % 3600 / 60) * 60 + n % 60 = n := by omega
  exact_mod_cast harith

/-! ## Lemmas: parsing rendered unit expressions (for C7) -/

theorem renderUnit_no_ws {o : Option (List Char)} {sfx : Char} {vv : ℚ}
    (ho : ∀ l, o = some l → matchNumericSeconds l = some vv)
    (hsfx : isWs sfx = false) : ∀ c ∈ renderUnit o sfx, isWs c = false := by
  intro c hc
  cases o with
  | none => simp [renderUnit] at hc
  | some l =>
    simp only [renderUnit, List.mem_append, List.mem_singleton] at hc
    rcases hc with hc | hc
    · exact not_isWs_of_digit_or_dot (matchNumericSeconds_chars (ho l rfl) c hc)
    · rw [hc]; exact hsfx

theorem parse_renderUnits (oh om os : Option (List Char)) (vh vm vs : ℚ)
    (hh : ∀ l, oh = some l → matchNumericSeconds l = some vh)
    (hm : ∀ l, om = some l → matchNumericSeconds l = some vm)
    (hs : ∀ l, os = some l → matchNumericSeconds l = some vs)
    (hh0 : oh = none → vh = 0) (hm0 : om = none → vm = 0) (hs0 : os = none → vs = 0)
    (hpos : 0 < vh * 3600 + vm * 60 + vs) :
    parseTimeToSeconds (String.mk (renderUnits oh om os)) =
      .ok (vh * 3600 + vm * 60 + vs) := by
  have hnws : ∀ c ∈ renderUnits oh om os, isWs c = false := by
    intro c hc
    unfold renderUnits at hc
    rcases List.mem_append.mp hc with hc | hc
    · rcases List.mem_append.mp hc with hc | hc
      · exact renderUnit_no_ws hh (by decide) c hc
      · exact renderUnit_no_ws hm (by decide) c hc
    · exact renderUnit_no_ws hs (by decide) c hc
  have htrim : trimList (String.mk (renderUnits oh om os)).toList =
      renderUnits oh om os := trimList_eq_self_of_no_ws hnws
  have hletter : ∃ c ∈ renderUnits oh om os, c = 'h' ∨ c = 'm' ∨ c = 's' := by
    cases hoh : oh with
    | some lh =>
      refine ⟨'h', ?_, Or.inl rfl⟩
      unfold renderUnits
      apply List.mem_append_left
      apply List.mem_append_left
      simp [renderUnit, hoh]
    | none =>
      cases hom : om with
      | some lm =>
        refine ⟨'m', ?_, Or.inr (Or.inl rfl)⟩
        unfold renderUnits
        apply List.mem_append_left
        apply List.mem_append_right
        simp [renderUnit, hom]
      | none =>
        cases hos : os with
        | some ls =>
          refine ⟨'s', ?_, Or.inr (Or.inr rfl)⟩
          unfold renderUnits
          apply List.mem_append_right
          simp [renderUnit, hos]
        | none =>
          exfalso
          rw [hh0 hoh, hm0 hom, hs0 hos] at hpos
          norm_num at hpos
  obtain ⟨c0, hc0mem, hc0⟩ := hletter
  have hc0mem2 : c0 ∈ trimList (String.mk (renderUnits oh om os)).toList := by
    rw [htrim]; exact hc0mem
  have hne : trimList (String.mk (renderUnits oh om os)).toList ≠ [] :=
    List.ne_nil_of_mem hc0mem2
  have hnum : matchNumericSeconds
      (trimList (String.mk (renderUnits oh om os)).toList) = none := by
    rcases hc0 with hc0 | hc0 | hc0 <;>
      (subst hc0; exact matchNumericSeconds_eq_none_of_mem hc0mem2 (by decide) (by decide))
  have hunit : matchUnit (trimList (String.mk (renderUnits oh om os)).toList) =
      some (oh.map (fun _ => vh), om.map (fun _ => vm), os.map (fun _ => vs)) := by
    rw [htrim]
    exact matchUnit_renderUnits oh om os vh vm vs hh hm hs
  have hgh : ((oh.map fun _ => vh).getD 0) = vh := by
    cases hoh : oh with
    | some l => simp
    | none => simp [hh0 hoh]
  have hgm : ((om.map fun _ => vm).getD 0) = vm := by
    cases hom : om with
    | some l => simp
    | none => simp [hm0 hom]
  have hgs : ((os.map fun _ => vs).getD 0) = vs := by
    cases hos : os with
    | some l => simp
    | none => simp [hs0 hos]
  have := parseTimeToSeconds_unit hne hnum hunit (by rw [hgh, hgm, hgs]; exact hpos)
  rw [this, hgh, hgm, hgs]

/-! ## Lemmas: `downloadClip` supervision and output discovery -/

theorem marker_suffix_jsTrim (a : String) :
    "Timed out while running yt-dlp".toList <:+ (jsTrim (a ++ timeoutMarker)).toList := by
  have h1 : (a ++ timeoutMarker).toList =
      (a.toList ++ ['\n']) ++ "Timed out while running yt-dlp".toList := by
    show (a ++ timeoutMarker).data = _
    rw [String.data_append]
    simp [timeoutMarker]
  show "Timed out while running yt-dlp".toList <:+ trimList (a ++ timeoutMarker).toList
  rw [h1]
  unfold trimList trimLeftL
  rw [trimRightL_append_of_getLast (by decide) (by decide)]
  exact suffix_dropWhile (a.toList ++ ['\n']) (by decide) (by decide)

theorem jsTrim_marker_ne_empty (a : String) : jsTrim (a ++ timeoutMarker) ≠ "" := by
  intro he
  have h := marker_suffix_jsTrim a
  rw [he] at h
  have h2 := List.suffix_nil.mp h
  exact absurd h2 (by decide)

theorem downloadClip_timeout_eval (o : DLOpts) (p : ProcBehavior)
    (hrange : o.startSeconds < o.endSeconds) (hspawn : p.spawnError = none)
    (hto : effectiveTimeoutMs o.timeoutMs < p.runMs) :
    downloadClipModel o p =
      ⟨true, some "SIGKILL", p.stderrCaptured ++ timeoutMarker,
        .error (jsTrim (p.stdoutCaptured ++ "\n" ++
          (p.stderrCaptured ++ timeoutMarker)))⟩ := by
  have hns : ¬ o.endSeconds ≤ o.startSeconds := not_le.mpr hrange
  have hcomb : jsTrim (p.stdoutCaptured ++ "\n" ++ (p.stderrCaptured ++ timeoutMarker)) ≠ "" := by
    have : p.stdoutCaptured ++ "\n" ++ (p.stderrCaptured ++ timeoutMarker) =
        (p.stdoutCaptured ++ "\n" ++ p.stderrCaptured) ++ timeoutMarker := by
      simp [String.append_assoc]
    rw [this]
    exact jsTrim_marker_ne_empty _
  simp only [downloadClipModel, hspawn]
  rw [if_neg hns, if_pos hto, if_pos hto, if_pos hto,
    if_pos (show (-1 : ℤ) ≠ 0 by decide), if_neg hcomb]

theorem downloadClip_exit0_eval (o : DLOpts) (p : ProcBehavior)
    (hrange : o.startSeconds < o.endSeconds) (hspawn : p.spawnError = none)
    (hrun : ¬ effectiveTimeoutMs o.timeoutMs < p.runMs) (hcode : p.exitCode = some 0) :
    downloadClipModel o p =
      ⟨true, none, p.stderrCaptured,
        match findProducedFile o.outputDir p.dirEntries o.baseName with
        | none => .error "Clip produced no output file"
        | some f => .ok f⟩ := by
  have hns : ¬ o.endSeconds ≤ o.startSeconds := not_le.mpr hrange
  simp only [downloadClipModel, hspawn, hcode]
  rw [if_neg hns, if_neg hrun, if_neg hrun, if_neg hrun]
  rw [if_neg (show ¬ ((some (0:ℤ)).getD (-1) ≠ 0) by simp)]
  cases findProducedFile o.outputDir p.dirEntries o.baseName <;> rfl

theorem string_append_right_ne {base e1 e2 : String} (h : e1 ≠ e2) :
    base ++ e1 ≠ base ++ e2 := by
  intro he
  apply h
  have hd : (base ++ e1).data = (base ++ e2).data := by rw [he]
  rw [String.data_append, String.data_append] at hd
  have h2 := List.append_cancel_left hd
  cases e1
  cases e2
  exact congrArg String.mk h2

theorem findProducedFile_mkv (dir : String) (base : String) :
    findProducedFile dir [base ++ ".mkv"] base = some (joinPath dir (base ++ ".mkv")) := by
  unfold findProducedFile probeCandidates
  have hmp4 : ([base ++ ".mkv"]).contains (base ++ ".mp4") = false := by
    simp only [List.contains, List.elem_eq_mem, List.mem_singleton,
      decide_eq_false_iff_not]
    exact string_append_right_ne (by decide)
  have hmkv : ([base ++ ".mkv"]).contains (base ++ ".mkv") = true := by
    simp [List.contains]
  rw [List.find?_cons_of_neg _ (by rw [hmp4]; simp),
    List.find?_cons_of_pos _ (by rw [hmkv])]

theorem findProducedFile_probe_miss (dir : String) (entries : List String)
    (base : String)
    (h : ∀ c ∈ probeCandidates base, entries.contains c = false) :
    findProducedFile dir entries base =
      (entries.find? (fun e => e.startsWith (base ++ "."))).map (joinPath dir) := by
  unfold findProducedFile
  have hfind : (probeCandidates base).find? (fun f => entries.contains f) = none :=
    List.find?_eq_none.mpr (fun x hx => by rw [h x hx]; simp)
  rw [hfind]

theorem findProducedFile_probe_hit (dir : String) (entries : List String)
    (base : String) (c : String)
    (h : (probeCandidates base).find? (fun f => entries.contains f) = some c) :
    findProducedFile dir entries base = some (joinPath dir c) := by
  unfold findProducedFile
  rw [h]

/-! ## Lemmas: `buildYtDlpArgs` versus the spec's argument-vector description -/

theorem jsOrStr_eq_or {a : Option String} (b : Option String) (ha : a ≠ some "") :
    jsOrStr a b = a.or b := by
  cases a with
  | none => simp [jsOrStr, jsTruthyStr]
  | some u =>
    have hu : ¬ u = "" := fun he => ha (by rw [he])
    simp [jsOrStr, jsTruthyStr, hu]

theorem or_ne_some_empty {a b : Option String} (ha : a ≠ some "") (hb : b ≠ some "") :
    a.or b ≠ some "" := by
  cases a with
  | none => simpa using hb
  | some u => simpa using ha

theorem uaResolve_eq {a b : Option String} (ha : a ≠ some "") (hb : b ≠ some "") :
    (jsOrStr (jsOrStr a b) (some DEFAULT_UA)).getD DEFAULT_UA =
      a.getD (b.getD DEFAULT_UA) := by
  rw [jsOrStr_eq_or b ha, jsOrStr_eq_or (some DEFAULT_UA) (or_ne_some_empty ha hb)]
  cases a with
  | none =>
    cases b with
    | none => rfl
    | some v => rfl
  | some u => rfl

theorem cookieArgs_eq {a b : Option String} (ha : a ≠ some "") (hb : b ≠ some "")
    (pre post : String) :
    (if jsTruthyStr (jsOrStr a b) = true then
      [pre, post ++ (jsOrStr a b).getD ""] else []) =
      (match a.or b with
       | some c => [pre, post ++ c]
       | none => []) := by
  rw [jsOrStr_eq_or b ha]
  cases hab : a.or b with
  | none => simp [jsTruthyStr]
  | some c =>
    have hc : ¬ c = "" := by
      have := or_ne_some_empty ha hb
      rw [hab] at this
      exact fun he => this (by rw [he])
    simp [jsTruthyStr, hc]

theorem cookiesFileArgs_eq {a b : Option String} (ha : a ≠ some "") (hb : b ≠ some "")
    (pre : String) :
    (if jsTruthyStr (jsOrStr a b) = true then [pre, (jsOrStr a b).getD ""] else []) =
      (match a.or b with
       | some c => [pre, c]
       | none => []) := by
  rw [jsOrStr_eq_or b ha]
  cases hab : a.or b with
  | none => simp [jsTruthyStr]
  | some c =>
    have hc : ¬ c = "" := by
      have := or_ne_some_empty ha hb
      rw [hab] at this
      exact fun he => this (by rw [he])
    simp [jsTruthyStr, hc]

theorem buildYtDlpArgs_eq_spec (opts : ArgsOpts) (env : EnvCfg) (stem : String)
    (h1 : opts.userAgent ≠ some "") (h2 : env.userAgent ≠ some "")
    (h3 : opts.cookieHeader ≠ some "") (h4 : env.cookieHeader ≠ some "")
    (h5 : opts.cookiesTxtPath ≠ some "") (h6 : env.cookiesFile ≠ some "") :
    buildYtDlpArgs opts env stem = specArgVector opts env stem := by
  simp only [buildYtDlpArgs, specArgVector]
  rw [uaResolve_eq h1 h2, cookieArgs_eq h3 h4 "--add-header" "Cookie: ",
    cookiesFileArgs_eq h5 h6 "--cookies"]

/-! ## The claims -/

/-- C1: the claim states that after any completed request the produced
output file and any staged credential file have been deleted.  The code
violates this: when `downloadClip` throws after `writeTempCookies` has
staged a credential file (here: a valid YouTube URL with `start = "10"`,
`end = "5"` and a base64 cookies payload, so `downloadClip` rejects the
range after staging), the catch handler answers 500 and never deletes the
staged file.  This theorem evaluates the POST handler at that input: the
cookies file was staged and still remains when the request is over. -/
theorem c1_staged_credential_remains :
    postClipModel
      { urlHost := some "www.youtube.com", startStr := "10", endStr := "5",
        cookieHeader := none, cookiesTxtBase64 := some "Zm9v", format := .mp4 }
      { spawnError := none, runMs := 0, exitCode := some 0,
        stdoutCaptured := "", stderrCaptured := "", dirEntries := [] }
      "aiclips-abc12345" "/tmp/aiclips" =
      { outcome := .serverError "end must be greater than start", spawned := false,
        cookieStaged := true, cookieFileRemains := true,
        outputFileRemains := false } := by
  decide

/-- C2: every `downloadClip` invocation is supervised with a wall-clock
budget of `max(10 s, requested timeoutMs)`, defaulting to 15 minutes; on
expiry the process is killed with `SIGKILL` (no grace period), the
timeout marker is appended to the captured stderr, and the operation
fails with an error whose message contains the marker text. -/
theorem c2_timeout_supervision :
    effectiveTimeoutMs none = 15 * 60 * 1000 ∧
    (∀ t, effectiveTimeoutMs (some t) = max 10000 t) ∧
    (∀ (o : DLOpts) (p : ProcBehavior),
      o.startSeconds < o.endSeconds → p.spawnError = none →
      effectiveTimeoutMs o.timeoutMs < p.runMs →
      (downloadClipModel o p).killedSignal = some "SIGKILL" ∧
      (downloadClipModel o p).finalStderr = p.stderrCaptured ++ timeoutMarker ∧
      ∃ m, (downloadClipModel o p).result = .error m ∧
        "Timed out while running yt-dlp".toList <:+: m.toList) := by
  refine ⟨by decide, fun t => rfl, ?_⟩
  intro o p h1 h2 h3
  rw [downloadClip_timeout_eval o p h1 h2 h3]
  refine ⟨rfl, rfl, _, rfl, ?_⟩
  have hassoc : p.stdoutCaptured ++ "\n" ++ (p.stderrCaptured ++ timeoutMarker) =
      (p.stdoutCaptured ++ "\n" ++ p.stderrCaptured) ++ timeoutMarker := by
    simp [String.append_assoc]
  rw [hassoc]
  exact (marker_suffix_jsTrim (p.stdoutCaptured ++ "\n" ++ p.stderrCaptured)).isInfix

/-- C2 witness: a run whose subprocess would finish only after 20 s
against a requested 1 s budget (clamped to the 10 s floor) is killed and
reports the timeout marker. -/
theorem c2_timeout_supervision_witness :
    (downloadClipModel ⟨0, 5, "/tmp/aiclips", "clip", some 1000⟩
      ⟨none, 20000, none, "out", "err", []⟩).killedSignal = some "SIGKILL" ∧
    (downloadClipModel ⟨0, 5, "/tmp/aiclips", "clip", some 1000⟩
      ⟨none, 20000, none, "out", "err", []⟩).finalStderr = "err" ++ timeoutMarker ∧
    ∃ m, (downloadClipModel ⟨0, 5, "/tmp/aiclips", "clip", some 1000⟩
      ⟨none, 20000, none, "out", "err", []⟩).result = .error m ∧
      "Timed out while running yt-dlp".toList <:+: m.toList :=
  c2_timeout_supervision.2.2 ⟨0, 5, "/tmp/aiclips", "clip", some 1000⟩
    ⟨none, 20000, none, "out", "err", []⟩ (by norm_num) rfl (by decide)

/-- C3: on exit code 0 the produced file is resolved by probing the fixed
ordered extension list, then scanning the directory for the first entry
starting with `basename.`; if both phases miss, the call fails with the
produced-no-output error; and when only `basename.mkv` exists the call
returns exactly that path. -/
theorem c3_output_resolution :
    (∀ (o : DLOpts) (p : ProcBehavior),
      o.startSeconds < o.endSeconds → p.spawnError = none →
      ¬ effectiveTimeoutMs o.timeoutMs < p.runMs → p.exitCode = some 0 →
      findProducedFile o.outputDir p.dirEntries o.baseName = none →
      (downloadClipModel o p).result = .error "Clip produced no output file") ∧
    (∀ (dir : String) (entries : List String) (base : String),
      (∀ c ∈ probeCandidates base, entries.contains c = false) →
      findProducedFile dir entries base =
        (entries.find? (fun e => e.startsWith (base ++ "."))).map (joinPath dir)) ∧
    (∀ (dir : String) (entries : List String) (base c : String),
      (probeCandidates base).find? (fun f => entries.contains f) = some c →
      findProducedFile dir entries base = some (joinPath dir c)) ∧
    (∀ (o : DLOpts) (p : ProcBehavior),
      o.startSeconds < o.endSeconds → p.spawnError = none →
      ¬ effectiveTimeoutMs o.timeoutMs < p.runMs → p.exitCode = some 0 →
      p.dirEntries = [o.baseName ++ ".mkv"] →
      (downloadClipModel o p).result =
        .ok (joinPath o.outputDir (o.baseName ++ ".mkv"))) := by
  refine ⟨?_, findProducedFile_probe_miss, findProducedFile_probe_hit, ?_⟩
  · intro o p h1 h2 h3 h4 hfind
    rw [downloadClip_exit0_eval o p h1 h2 h3 h4]
    simp [hfind]
  · intro o p h1 h2 h3 h4 hdir
    rw [downloadClip_exit0_eval o p h1 h2 h3 h4]
    rw [hdir, findProducedFile_mkv]

/-- C3 witness: a run that exits 0 having written only `clip.mkv`
resolves to exactly that path. -/
theorem c3_output_resolution_witness :
    (downloadClipModel ⟨0, 5, "/tmp/aiclips", "clip", none⟩
      ⟨none, 0, some 0, "", "", ["clip.mkv"]⟩).result =
      .ok (joinPath "/tmp/aiclips" ("clip" ++ ".mkv")) :=
  c3_output_resolution.2.2.2 ⟨0, 5, "/tmp/aiclips", "clip", none⟩
    ⟨none, 0, some 0, "", "", ["clip.mkv"]⟩ (by norm_num) rfl (by decide) rfl
    (by decide)

/-- C4: the argument vector built by `buildYtDlpArgs` follows the exact
fixed order the specification describes (`specArgVector`), including the
User-Agent precedence chain and the conditionally-included cookie
arguments, for every input whose optional string fields are either absent
or non-empty (the sense in which a value is "present"). -/
theorem c4_argument_vector_order (opts : ArgsOpts) (env : EnvCfg) (stem : String)
    (h1 : opts.userAgent ≠ some "") (h2 : env.userAgent ≠ some "")
    (h3 : opts.cookieHeader ≠ some "") (h4 : env.cookieHeader ≠ some "")
    (h5 : opts.cookiesTxtPath ≠ some "") (h6 : env.cookiesFile ≠ some "") :
    buildYtDlpArgs opts env stem = specArgVector opts env stem :=
  buildYtDlpArgs_eq_spec opts env stem h1 h2 h3 h4 h5 h6

/-- C4 witness: concrete options with an explicit Cookie header and an
environment-supplied cookies file. -/
theorem c4_argument_vector_order_witness :
    buildYtDlpArgs
      { url := "https://www.youtube.com/watch", startSeconds := 10,
        endSeconds := 20, format := .mp4, cookieHeader := some "A=1",
        cookiesTxtPath := none, userAgent := none }
      { userAgent := none, cookieHeader := none, cookiesFile := some "/tmp/c.txt" }
      "/tmp/aiclips/clip" =
    specArgVector
      { url := "https://www.youtube.com/watch", startSeconds := 10,
        endSeconds := 20, format := .mp4, cookieHeader := some "A=1",
        cookiesTxtPath := none, userAgent := none }
      { userAgent := none, cookieHeader := none, cookiesFile := some "/tmp/c.txt" }
      "/tmp/aiclips/clip" :=
  c4_argument_vector_order _ _ _ (by decide) (by decide) (by decide) (by decide)
    (by decide) (by decide)

/-- C5 counterexample: `parseTimeToSeconds` can succeed with a negative
result.  The clock branch parses each field with `parseFloat`, which
accepts a leading minus sign, so `"-5:0"` parses to `-300`. -/
theorem c5_counterexample :
    parseTimeToSeconds "-5:0" = Except.ok (-300) ∧ ((-300 : ℚ) < 0) := by
  constructor
  · decide
  · decide

/-- C5 (amended): the result of a successful parse is non-negative
whenever the trimmed input contains no minus sign (bare numbers and unit
expressions are always non-negative; clock fields can only be negative
through an explicit leading `-`). -/
theorem c5_nonneg_without_minus (s : String) (v : ℚ)
    (h : parseTimeToSeconds s = .ok v)
    (hminus : '-' ∉ trimList s.toList) : 0 ≤ v := by
  have hsub : ∀ D ∈ (splitChar (trimList s.toList) ':').map trimList, '-' ∉ D := by
    intro D hD hmem
    obtain ⟨p, hp, hpD⟩ := List.mem_map.mp hD
    rw [← hpD] at hmem
    exact hminus (mem_of_mem_splitChar hp '-' (mem_of_mem_trimList hmem))
  rcases parseTimeToSeconds_ok_inv h with ⟨w, hm, hv⟩ | ⟨gh, gm, gs, hu, hv, hpos⟩ | hc
  · rw [hv]
    exact matchNumericSeconds_nonneg hm
  · exact le_of_lt hpos
  · rcases colonEval_ok_inv hc with
      ⟨A, B, va, vb, hparts, ha, hb, hv⟩ |
      ⟨A, B, C, va, vb, vc, hparts, ha, hb, hcf, hv⟩
    · have hva : 0 ≤ va :=
        jsParseFloatFinite_nonneg ha (hsub A (by rw [hparts]; simp))
      have hvb : 0 ≤ vb :=
        jsParseFloatFinite_nonneg hb (hsub B (by rw [hparts]; simp))
      rw [hv]
      have := mul_nonneg hva (by norm_num : (0:ℚ) ≤ 60)
      linarith
    · have hva : 0 ≤ va :=
        jsParseFloatFinite_nonneg ha (hsub A (by rw [hparts]; simp))
      have hvb : 0 ≤ vb :=
        jsParseFloatFinite_nonneg hb (hsub B (by rw [hparts]; simp))
      have hvc : 0 ≤ vc :=
        jsParseFloatFinite_nonneg hcf (hsub C (by rw [hparts]; simp))
      rw [hv]
      have hm1 := mul_nonneg hva (by norm_num : (0:ℚ) ≤ 3600)
      have hm2 := mul_nonneg hvb (by norm_num : (0:ℚ) ≤ 60)
      linarith

/-- C5 witness: `"2:10"` parses successfully, contains no minus sign, and
the amended theorem yields non-negativity of its value. -/
theorem c5_nonneg_without_minus_witness : (0 : ℚ) ≤ 130 :=
  c5_nonneg_without_minus "2:10" 130 (by decide) (by decide)

/-- C6 counterexample: the claim says a colon-separated input with a
non-numeric field is rejected, but `"1:5x"` is accepted with value 65:
`parseFloat` takes the numeric prefix `5` of the field `"5x"`, even
though `"5x"` is not a decimal number (it fails the spec's
`\d+(\.\d+)?` grammar, `matchNumericSeconds`). -/
theorem c6_counterexample :
    parseTimeToSeconds "1:5x" = Except.ok 65 ∧
    matchNumericSeconds "5x".toList = none := by
  constructor
  · decide
  · decide

/-- C6 (amended): for colon-separated inputs, a successful parse has
exactly two or three fields; an empty (or whitespace-only) field is
rejected with "Invalid time format"; and a field on which `parseFloat`
yields no finite value is rejected with the unsupported-format error.
Fields with a numeric prefix followed by trailing garbage, however, are
treated as numeric. -/
theorem c6_colon_field_validation (s : String)
    (hcolon : ':' ∈ trimList s.toList) :
    (∀ v, parseTimeToSeconds s = .ok v →
      ((splitChar (trimList s.toList) ':').map trimList).length = 2 ∨
      ((splitChar (trimList s.toList) ':').map trimList).length = 3) ∧
    (((splitChar (trimList s.toList) ':').map trimList).any
        (fun p => p.isEmpty) = true →
      parseTimeToSeconds s = .error "Invalid time format") ∧
    (((splitChar (trimList s.toList) ':').map trimList).any
        (fun p => p.isEmpty) = false →
      (∃ p ∈ (splitChar (trimList s.toList) ':').map trimList,
        jsParseFloatFinite p = none) →
      parseTimeToSeconds s = .error ("Unsupported time format: " ++ s)) := by
  have he := parseTimeToSeconds_eq_colonEval hcolon
  refine ⟨?_, ?_, ?_⟩
  · intro v hv
    rw [he] at hv
    exact colonEval_ok_length hv
  · intro hany
    rw [he]
    exact colonEval_empty_part hany
  · intro hnoemp hfail
    rw [he]
    exact colonEval_float_fail hnoemp hfail

/-- C6 witness: `"1: :2"` has an empty middle field and is rejected with
"Invalid time format". -/
theorem c6_colon_field_validation_witness :
    parseTimeToSeconds "1: :2" = .error "Invalid time format" :=
  (c6_colon_field_validation "1: :2" (by decide)).2.1 (by decide)

/-- C7: every valid compound unit expression (optional `h`-, `m`-,
`s`-suffixed decimal components in that order, strictly positive weighted
sum) parses to `3600·hours + 60·minutes + seconds`; every valid clock
expression parses to the manual field arithmetic; and
`parseTimeToSeconds "1h2m3s" = 3723`, `parseTimeToSeconds "2:10" = 130`,
`parseTimeToSeconds ""` fails. -/
theorem c7_unit_and_clock_values :
    (∀ (oh om os : Option (List Char)) (vh vm vs : ℚ),
      (∀ l, oh = some l → matchNumericSeconds l = some vh) →
      (∀ l, om = some l → matchNumericSeconds l = some vm) →
      (∀ l, os = some l → matchNumericSeconds l = some vs) →
      (oh = none → vh = 0) → (om = none → vm = 0) → (os = none → vs = 0) →
      0 < vh * 3600 + vm * 60 + vs →
      parseTimeToSeconds (String.mk (renderUnits oh om os)) =
        .ok (vh * 3600 + vm * 60 + vs)) ∧
    (∀ (s : String) (A B : List Char) (va vb : ℚ),
      ':' ∈ trimList s.toList →
      (splitChar (trimList s.toList) ':').map trimList = [A, B] →
      jsParseFloatFinite A = some va → jsParseFloatFinite B = some vb →
      parseTimeToSeconds s = .ok (va * 60 + vb)) ∧
    (∀ (s : String) (A B C : List Char) (va vb vc : ℚ),
      ':' ∈ trimList s.toList →
      (splitChar (trimList s.toList) ':').map trimList = [A, B, C] →
      jsParseFloatFinite A = some va → jsParseFloatFinite B = some vb →
      jsParseFloatFinite C = some vc →
      parseTimeToSeconds s = .ok (va * 3600 + vb * 60 + vc)) ∧
    parseTimeToSeconds "1h2m3s" = .ok 3723 ∧
    parseTimeToSeconds "2:10" = .ok 130 ∧
    parseTimeToSeconds "" = .error "Time is empty" := by
  refine ⟨parse_renderUnits, ?_, ?_, by decide, by decide, by decide⟩
  · intro s A B va vb hcolon hparts ha hb
    rw [parseTimeToSeconds_eq_colonEval hcolon]
    exact colonEval_two hparts ha hb
  · intro s A B C va vb vc hcolon hparts ha hb hc
    rw [parseTimeToSeconds_eq_colonEval hcolon]
    exact colonEval_three hparts ha hb hc

/-- C7 witness: the unit expression `2h5s` (minute component absent)
parses to `2·3600 + 0·60 + 5`. -/
theorem c7_unit_and_clock_values_witness :
    parseTimeToSeconds (String.mk (renderUnits (some ['2']) none (some ['5']))) =
      .ok ((2 : ℚ) * 3600 + 0 * 60 + 5) :=
  c7_unit_and_clock_values.1 (some ['2']) none (some ['5']) 2 0 5
    (fun l hl => by rw [← Option.some.inj hl]; decide)
    (fun l hl => by cases hl)
    (fun l hl => by rw [← Option.some.inj hl]; decide)
    (fun h => by cases h) (fun _ => rfl) (fun h => by cases h)
    (by norm_num)

/-- C8: `secondsToHms` is idempotent under re-formatting of its own
output's parsed value for natural-number inputs (the parsed value is the
original number); every negative input is clamped to `"00:00:00"`; and
`secondsToHms 3723 = "01:02:03"`, `secondsToHms (-5) = "00:00:00"`. -/
theorem c8_secondsToHms_roundtrip :
    (∀ n : ℕ, ∃ v : ℚ, parseTimeToSeconds (secondsToHms (n : ℚ)) = .ok v ∧
      secondsToHms v = secondsToHms (n : ℚ)) ∧
    (∀ q : ℚ, q < 0 → secondsToHms q = "00:00:00") ∧
    secondsToHms 3723 = "01:02:03" ∧
    secondsToHms (-5) = "00:00:00" := by
  refine ⟨fun n => ⟨(n : ℚ), parse_secondsToHms_natCast n, rfl⟩, ?_, by decide, by decide⟩
  intro q hq
  unfold secondsToHms
  have h1 : (max 0 ⌊q⌋).toNat = 0 := by
    have h2 : ⌊q⌋ ≤ 0 := Int.floor_nonpos (le_of_lt hq)
    omega
  rw [h1]
  decide

/-- C8 witness: a negative rational input is clamped to `"00:00:00"`. -/
theorem c8_secondsToHms_roundtrip_witness : secondsToHms (-7 : ℚ) = "00:00:00" :=
  c8_secondsToHms_roundtrip.2.1 (-7) (by norm_num)

/-- C9: any request (GET or POST) whose URL hostname is off the
allow-list (`youtube.com`, `youtu.be`, or a subdomain of either) is
answered with the 400 bad-request outcome and `downloadClip` is never
reached: the trace records no spawn, no staging, and no files. -/
theorem c9_unauthorized_host_no_spawn (h : String) (hh : hostAllowed h = false)
    (startStr endStr : String) (cookieHeader cookiesB64 : Option String)
    (format : Format) (p : ProcBehavior) (baseName outputDirectory : String) :
    postClipModel
      { urlHost := some h, startStr := startStr, endStr := endStr,
        cookieHeader := cookieHeader, cookiesTxtBase64 := cookiesB64,
        format := format } p baseName outputDirectory =
      { outcome := .badRequest "Only YouTube URLs are supported", spawned := false,
        cookieStaged := false, cookieFileRemains := false,
        outputFileRemains := false } ∧
    getClipModel
      { urlHost := some h, startStr := startStr, endStr := endStr,
        cookieHeader := cookieHeader } p baseName outputDirectory =
      { outcome := .badRequest "Only YouTube URLs are supported", spawned := false,
        cookieStaged := false, cookieFileRemains := false,
        outputFileRemains := false } := by
  constructor
  · simp [postClipModel, hh]
  · simp [getClipModel, hh]

/-- C9 witness: a request for a non-YouTube host is rejected with 400 and
no subprocess. -/
theorem c9_unauthorized_host_no_spawn_witness :
    postClipModel
      { urlHost := some "evil.example.com", startStr := "1", endStr := "2",
        cookieHeader := none, cookiesTxtBase64 := none, format := .mp4 }
      { spawnError := none, runMs := 0, exitCode := some 0,
        stdoutCaptured := "", stderrCaptured := "", dirEntries := [] }
      "b" "/tmp/aiclips" =
      { outcome := .badRequest "Only YouTube URLs are supported", spawned := false,
        cookieStaged := false, cookieFileRemains := false,
        outputFileRemains := false } :=
  (c9_unauthorized_host_no_spawn "evil.example.com" (by decide) "1" "2" none none
    .mp4 ⟨none, 0, some 0, "", "", []⟩ "b" "/tmp/aiclips").1

/-- C10: colon-separated clock expressions are evaluated by plain field
arithmetic with no per-field range restriction: any two- or three-field
expression whose (trimmed) fields all parse to finite numbers is
accepted with the weighted sum of the field values, so
`parseTimeToSeconds "90:00" = 5400` and `parseTimeToSeconds "1:90" = 150`. -/
theorem c10_clock_plain_arithmetic :
    (∀ (s : String) (A B : List Char) (va vb : ℚ),
      ':' ∈ trimList s.toList →
      (splitChar (trimList s.toList) ':').map trimList = [A, B] →
      jsParseFloatFinite A = some va → jsParseFloatFinite B = some vb →
      parseTimeToSeconds s = .ok (va * 60 + vb)) ∧
    (∀ (s : String) (A B C : List Char) (va vb vc : ℚ),
      ':' ∈ trimList s.toList →
      (splitChar (trimList s.toList) ':').map trimList = [A, B, C] →
      jsParseFloatFinite A = some va → jsParseFloatFinite B = some vb →
      jsParseFloatFinite C = some vc →
      parseTimeToSeconds s = .ok (va * 3600 + vb * 60 + vc)) ∧
    parseTimeToSeconds "90:00" = .ok 5400 ∧
    parseTimeToSeconds "1:90" = .ok 150 := by
  refine ⟨?_, ?_, by decide, by decide⟩
  · intro s A B va vb hcolon hparts ha hb
    rw [parseTimeToSeconds_eq_colonEval hcolon]
    exact colonEval_two hparts ha hb
  · intro s A B C va vb vc hcolon hparts ha hb hc
    rw [parseTimeToSeconds_eq_colonEval hcolon]
    exact colonEval_three hparts ha hb hc

/-- C10 witness: `"7:30"` (minute field above the usual clock range is
also fine, e.g. covered by the general statement) evaluates to
`7·60 + 30`. -/
theorem c10_clock_plain_arithmetic_witness :
    parseTimeToSeconds "7:30" = .ok ((7 : ℚ) * 60 + 30) :=
  c10_clock_plain_arithmetic.1 "7:30" ['7'] ['3', '0'] 7 30 (by decide) (by decide)
    (by decide) (by decide)

end AIClips
